import Mathlib

/-!
A verification development for the Sudoku constraint-propagation solver in
`SudokuGame.py`.  The Python classes `SudokuEntry` and `SudokuState` and the
generic `dfs` driver are shallowly embedded: mutating methods become pure
functions returning a new state, and methods that can raise (via `assert` or
unpacking `None`) return `Option`.  Python lists become Lean `List`s, the
`for` loops over `range(self.size)` become folds or structural recursion over
the corresponding index lists, and `copy.deepcopy` is the identity on the
value-semantics embedding (an explicit heap model near the end of the file
accounts for the object graph that `deepcopy` duplicates).
-/

/-- Embedding of class `SudokuEntry`: a `fixed` flag and the list of
still-possible values (`self.domain`). -/
structure SudokuEntry where
  fixed : Bool
  domain : List Nat
deriving DecidableEq, Repr

/-- `SudokuEntry.__init__`: unfixed, with full domain `list(range(1, 10))`. -/
def SudokuEntry.init : SudokuEntry :=
  { fixed := false, domain := List.range' 1 9 }

/-- `SudokuEntry.is_fixed`. -/
def SudokuEntry.is_fixed (e : SudokuEntry) : Bool := e.fixed

/-- `SudokuEntry.width`: `len(self.domain)`. -/
def SudokuEntry.width (e : SudokuEntry) : Nat := e.domain.length

/-- `SudokuEntry.values`: returns the domain list. -/
def SudokuEntry.values (e : SudokuEntry) : List Nat := e.domain

/-- `SudokuEntry.has_conflict`: `len(self.domain) == 0`. -/
def SudokuEntry.has_conflict (e : SudokuEntry) : Bool := e.domain.length == 0

/-- `SudokuEntry.fix(n)`: `assert n in self.domain` (modelled as `none` when
the assertion fails), then `self.domain = [n]; self.fixed = True`. -/
def SudokuEntry.fix (e : SudokuEntry) (n : Nat) : Option SudokuEntry :=
  if n ∈ e.domain then some { fixed := true, domain := [n] } else none

/-- `SudokuEntry.eliminate(n)`: if `n in self.domain` then
`assert not self.fixed` (modelled as `none` when it fails) and
`self.domain.remove(n)`; otherwise a silent no-op. -/
def SudokuEntry.eliminate (e : SudokuEntry) (n : Nat) : Option SudokuEntry :=
  if n ∈ e.domain then
    if e.fixed then none
    else some { fixed := e.fixed, domain := e.domain.erase n }
  else some e

/-- Embedding of class `SudokuState`: the 9×9 grid of entries and the
`num_placed` counter.  `self.size` is the constant 9 (see
`SudokuState.size`). -/
structure SudokuState where
  num_placed : Nat
  board : List (List SudokuEntry)
deriving DecidableEq, Repr

/-- `self.size`, set to 9 in `SudokuState.__init__` and never changed. -/
def SudokuState.size (_ : SudokuState) : Nat := 9

/-- `SudokuState.__init__`: a 9×9 board of fresh entries, `num_placed = 0`. -/
def SudokuState.init : SudokuState :=
  { num_placed := 0
    board := (List.range 9).map (fun _ => (List.range 9).map (fun _ => SudokuEntry.init)) }

/-- Reading `self.board[row][col]`.  Out-of-range reads return a default
fresh entry; every access made by the embedded methods is in range on a
well-shaped board. -/
def SudokuState.entry (s : SudokuState) (row col : Nat) : SudokuEntry :=
  (s.board.getD row []).getD col SudokuEntry.init

/-- Writing `self.board[row][col] = e` (the effect, on the value embedding,
of mutating the entry object stored there).  Out-of-range writes are
no-ops. -/
def SudokuState.setEntry (s : SudokuState) (row col : Nat) (e : SudokuEntry) : SudokuState :=
  { s with board := s.board.set row ((s.board.getD row []).set col e) }

/-- `SudokuState.remove_conflict(row, col, num)`: eliminate `num` at
`(row, col)` unless that entry is fixed.  The `none` branch of `eliminate`
is unreachable here because the guard excludes fixed entries, and
`eliminate` only fails on a fixed entry; returning `s` there keeps the
function total without changing its meaning. -/
def SudokuState.remove_conflict (s : SudokuState) (row col num : Nat) : SudokuState :=
  if (s.entry row col).is_fixed = false then
    match (s.entry row col).eliminate num with
    | some e => s.setEntry row col e
    | none => s
  else s

/-- `SudokuState.get_subgrid_number(row, col)`:
`int(row/3) * 3 + int(col/3) + 1`. -/
def SudokuState.get_subgrid_number (_ : SudokuState) (row col : Nat) : Nat :=
  row / 3 * 3 + col / 3 + 1

/-- `SudokuState.remove_all_conflicts(row, col, num)`: the three loops of
the source (same column, same row, same subgrid), in order. -/
def SudokuState.remove_all_conflicts (s : SudokuState) (row col num : Nat) : SudokuState :=
  let s1 := (List.range s.size).foldl (fun t i => t.remove_conflict i col num) s
  let s2 := (List.range s1.size).foldl (fun t j => t.remove_conflict row j num) s1
  (List.range s2.size).foldl (fun t k =>
    (List.range t.size).foldl (fun u l =>
      if u.get_subgrid_number k l = u.get_subgrid_number row col then
        u.remove_conflict k l num
      else u) t) s2

/-- `SudokuState.add_number(row, col, num)`: fix the entry (which can fail
its assertion, hence `Option`), increment `num_placed`, then remove the
conflicts. -/
def SudokuState.add_number (s : SudokuState) (row col num : Nat) : Option SudokuState :=
  ((s.entry row col).fix num).map (fun e =>
    let s1 := s.setEntry row col e
    let s2 := { s1 with num_placed := s1.num_placed + 1 }
    s2.remove_all_conflicts row col num)

/-- The state produced by a successful `add_number(row, col, num)` call (the
value inside the `some`): the entry is overwritten by the fixed singleton,
`num_placed` is incremented, and the conflicts are removed.  `add_number`
returns exactly `some (addNum ...)` whenever the `fix` assertion passes. -/
def SudokuState.addNum (s : SudokuState) (row col num : Nat) : SudokuState :=
  ({ s.setEntry row col { fixed := true, domain := [num] } with
      num_placed := s.num_placed + 1 }).remove_all_conflicts row col num

/-- The row-major list of all 81 cell coordinates, i.e. the iteration space
of the nested `for row in range(self.size): for col in range(self.size)`
loops. -/
def allCells : List (Nat × Nat) :=
  (List.range 9).flatMap (fun r => (List.range 9).map (fun c => (r, c)))

/-- The ordered list of cell positions visited by the three loops of
`remove_all_conflicts`: the whole column, then the whole row, then every
cell of the same subgrid. -/
def conflictCells (row col : Nat) : List (Nat × Nat) :=
  ((List.range 9).map (fun i => (i, col))) ++
    ((List.range 9).map (fun j => (row, j))) ++
    ((List.range 9).flatMap (fun k =>
      ((List.range 9).filter
        (fun l => decide (k / 3 * 3 + l / 3 + 1 = row / 3 * 3 + col / 3 + 1))).map
        (fun l => (k, l))))

/-- The scan of `SudokuState.get_most_constrained_cell`, abstracted over the
function reading `self.board[row][col]` so the same loop body serves the
plain and the heap-level model.  The accumulator is the pair of the running
`dom` bound and the running `location`. -/
def mccGen (look : Nat → Nat → SudokuEntry) :
    List (Nat × Nat) → Nat → Option (Nat × Nat) → Nat × Option (Nat × Nat)
  | [], dom, location => (dom, location)
  | (row, col) :: ps, dom, location =>
    if (look row col).is_fixed = false ∧ (look row col).width ≤ dom then
      mccGen look ps (look row col).width (some (row, col))
    else
      mccGen look ps dom location

/-- `SudokuState.get_most_constrained_cell`: scan all cells row-major with
`dom` starting at `self.size` and `location` starting at `None`. -/
def SudokuState.get_most_constrained_cell (s : SudokuState) : Option (Nat × Nat) :=
  (mccGen s.entry allCells s.size none).2

/-- `SudokuState.solution_is_possible`: no entry has an empty domain. -/
def SudokuState.solution_is_possible (s : SudokuState) : Bool :=
  (List.range s.size).all (fun row =>
    (List.range s.size).all (fun col => !(s.entry row col).has_conflict))

/-- `SudokuState.is_goal`: `self.size * self.size == self.num_placed`. -/
def SudokuState.is_goal (s : SudokuState) : Bool :=
  s.size * s.size == s.num_placed

/-- `copy.deepcopy(self)`: on the value-semantics embedding a state is
copied by value, so deep copying is the identity.  The heap model at the end
of the file represents the allocation behaviour explicitly. -/
def SudokuState.deepcopy (s : SudokuState) : SudokuState := s

/-- One pass of the scanning loop of `SudokuState.propagate` over the listed
cells.  Result `(t, true)` means the pass stopped at `self.propagate();
return` (a forced cell was fixed and the board was still possible); result
`(t, false)` means the loop ran to the end (fixing cells whose domain
collapsed to a single value, without recursing, whenever the board was
already impossible).  `none` models an uncaught exception and is provably
unreachable. -/
def SudokuState.scanAux : List (Nat × Nat) → SudokuState → Option (SudokuState × Bool)
  | [], s => some (s, false)
  | (ri, ci) :: rest, s =>
    if (s.entry ri ci).is_fixed = false ∧ (s.entry ri ci).width = 1 then
      match s.add_number ri ci ((s.entry ri ci).values.headD 0) with
      | none => none
      | some s' =>
        if s'.solution_is_possible then some (s', true)
        else SudokuState.scanAux rest s'
    else SudokuState.scanAux rest s

/-- `SudokuState.propagate`, fuel-indexed: each unit of fuel allows one
recursive re-scan.  `none` means the fuel ran out (or an exception), which
`propagate_spec` below shows cannot happen from the chosen initial fuel. -/
def SudokuState.propagateAux : Nat → SudokuState → Option SudokuState
  | 0, _ => none
  | fuel + 1, s =>
    match SudokuState.scanAux allCells s with
    | none => none
    | some (s', false) => some s'
    | some (s', true) => SudokuState.propagateAux fuel s'

/-- `SudokuState.propagate`.  Each recursive call in the source strictly
increases the number of fixed cells, which is bounded by 81, so 82 units of
fuel always suffice (`propagate_total`). -/
def SudokuState.propagate (s : SudokuState) : Option SudokuState :=
  SudokuState.propagateAux 82 s

/-- The loop body of `SudokuState.next_states` over the candidate values of
the chosen cell: deep-copy the board, `add_number`, `propagate`, and keep
the copy when `solution_is_possible`.  A `none` anywhere models an uncaught
exception propagating out of the loop. -/
def SudokuState.branches (s : SudokuState) (row col : Nat) :
    List Nat → Option (List SudokuState)
  | [] => some []
  | value :: rest =>
    match (s.deepcopy).add_number row col value with
    | none => none
    | some nb =>
      match nb.propagate with
      | none => none
      | some nb2 =>
        match SudokuState.branches s row col rest with
        | none => none
        | some tail =>
          some (if nb2.solution_is_possible then nb2 :: tail else tail)

/-- `SudokuState.next_states`: unpack `get_most_constrained_cell()` (a
`None` result makes the Python unpacking raise, modelled as `none`), then
iterate over the values remaining at that cell. -/
def SudokuState.next_states (s : SudokuState) : Option (List SudokuState) :=
  match s.get_most_constrained_cell with
  | none => none
  | some (row, col) => s.branches row col (s.entry row col).values

/-- The `dfs` driver, fuel-indexed by recursion depth, specialised to the
one state class of the repository.  `result += dfs(s)` over the successors
becomes a left fold that concatenates the recursive results in successor
order. -/
def dfsAux : Nat → SudokuState → Option (List SudokuState)
  | 0, _ => none
  | fuel + 1, s =>
    if s.is_goal then some [s]
    else
      match s.next_states with
      | none => none
      | some succs =>
        succs.foldl (fun acc s' =>
          acc.bind (fun r => (dfsAux fuel s').map (fun r' => r ++ r'))) (some [])

/-- `dfs(state)`.  Every successor has strictly more fixed cells than its
parent, and there are 81 cells, so recursion depth 82 always suffices on a
well-formed board (`dfs_total`). -/
def dfs (s : SudokuState) : Option (List SudokuState) :=
  dfsAux 82 s

/-! ### Derived predicates about the data model -/

/-- The board is a genuine 9×9 grid. -/
def SudokuState.Shape (s : SudokuState) : Prop :=
  s.board.length = 9 ∧ ∀ row ∈ s.board, row.length = 9

/-- Representation invariant of one entry: the domain is a duplicate-free
ascending list of values in 1..9 (the embedding of a set of candidate
values). -/
def SudokuEntry.OK (e : SudokuEntry) : Prop :=
  e.domain.Nodup ∧ List.Pairwise (· < ·) e.domain ∧ ∀ n ∈ e.domain, 1 ≤ n ∧ n ≤ 9

/-- Representation invariant of a board. -/
def SudokuState.Rep (s : SudokuState) : Prop :=
  s.Shape ∧ ∀ r < 9, ∀ c < 9, SudokuEntry.OK (s.entry r c)

/-- Number of fixed cells on the board. -/
def SudokuState.fixedCount (s : SudokuState) : Nat :=
  allCells.countP (fun p => (s.entry p.1 p.2).is_fixed)

/-- Number of unfixed cells on the board. -/
def SudokuState.unfixedCount (s : SudokuState) : Nat :=
  allCells.countP (fun p => !(s.entry p.1 p.2).is_fixed)

/-- The documented board invariant (claim C9): `num_placed` counts the fixed
cells and every fixed cell's domain has exactly one element. -/
def SudokuState.Counts (s : SudokuState) : Prop :=
  s.num_placed = s.fixedCount ∧
    ∀ r < 9, ∀ c < 9, (s.entry r c).is_fixed = true → (s.entry r c).width = 1

instance (s : SudokuState) : Decidable s.Shape := by
  unfold SudokuState.Shape; infer_instance

instance (e : SudokuEntry) : Decidable e.OK := by
  unfold SudokuEntry.OK; infer_instance

instance (s : SudokuState) : Decidable s.Rep := by
  unfold SudokuState.Rep; infer_instance

instance (s : SudokuState) : Decidable s.Counts := by
  unfold SudokuState.Counts; infer_instance

/-- One search step: `b` is among the successors of `a`. -/
def stepState (a b : SudokuState) : Prop :=
  ∃ l, a.next_states = some l ∧ b ∈ l

/-- Reachability along `next_states`, as in the `dfs` docstring. -/
def ReachState : SudokuState → SudokuState → Prop :=
  Relation.ReflTransGen stepState

/-- Statement-side description of the successor list, following the words of
the specification: for each value still in the chosen cell's domain, in
domain order, produce a candidate by deep-copying the board, fixing that
value at that cell and running propagation, and keep the candidate exactly
when the solution is still possible afterwards. -/
def successorsSpec (s : SudokuState) (row col : Nat) : List SudokuState :=
  (s.entry row col).values.filterMap (fun v =>
    (((s.deepcopy).add_number row col v).bind SudokuState.propagate).bind
      (fun nb => if nb.solution_is_possible then some nb else none))

/-! ### Heap-level model

The value-semantics embedding above cannot even express the mutation claim
of the specification (a parent's cells are never observably mutated while
its successors are built), because states are copied by value.  The
definitions below re-run `next_states` over an explicit heap: every
`SudokuEntry` object lives at a heap address, a state holds the 81 addresses
of its cells, mutating an entry writes through its address, and
`copy.deepcopy` allocates 81 fresh addresses at the end of the heap.  The
loop bodies are the same translations as above, reading and writing through
addresses. -/

/-- The heap: one Python `SudokuEntry` object per address. -/
abbrev PyHeap : Type := List SudokuEntry

/-- A `SudokuState` object: its `num_placed` attribute and the heap
addresses of its 81 entries. -/
structure StateRef where
  num_placed : Nat
  cells : List (List Nat)

/-- Dereference an address. -/
def readH (h : PyHeap) (a : Nat) : SudokuEntry :=
  List.getD h a SudokuEntry.init

/-- Overwrite the object at an address (the effect of mutating it). -/
def writeH (h : PyHeap) (a : Nat) (e : SudokuEntry) : PyHeap :=
  List.set h a e

/-- The address of `self.board[row][col]`. -/
def StateRef.addr (sr : StateRef) (row col : Nat) : Nat :=
  (sr.cells.getD row []).getD col 0

/-- Read `self.board[row][col]` through the heap. -/
def entryH (h : PyHeap) (sr : StateRef) (row col : Nat) : SudokuEntry :=
  readH h (sr.addr row col)

/-- `remove_conflict`, heap level. -/
def remove_conflictH (h : PyHeap) (sr : StateRef) (row col num : Nat) : PyHeap :=
  if (entryH h sr row col).is_fixed = false then
    match (entryH h sr row col).eliminate num with
    | some e => writeH h (sr.addr row col) e
    | none => h
  else h

/-- `remove_all_conflicts`, heap level (the subgrid test
`self.get_subgrid_number(k, l) == self.get_subgrid_number(row, col)` is the
state-independent arithmetic of `SudokuState.get_subgrid_number`). -/
def remove_all_conflictsH (h : PyHeap) (sr : StateRef) (row col num : Nat) : PyHeap :=
  let h1 := (List.range 9).foldl (fun t i => remove_conflictH t sr i col num) h
  let h2 := (List.range 9).foldl (fun t j => remove_conflictH t sr row j num) h1
  (List.range 9).foldl (fun t k =>
    (List.range 9).foldl (fun u l =>
      if k / 3 * 3 + l / 3 + 1 = row / 3 * 3 + col / 3 + 1 then
        remove_conflictH u sr k l num
      else u) t) h2

/-- `add_number`, heap level.  A failing `fix` assertion raises before any
mutation, so the heap is returned unchanged alongside `none`. -/
def add_numberH (h : PyHeap) (sr : StateRef) (row col num : Nat) : PyHeap × Option StateRef :=
  match (entryH h sr row col).fix num with
  | none => (h, none)
  | some e =>
    let h1 := writeH h (sr.addr row col) e
    let sr1 : StateRef := { num_placed := sr.num_placed + 1, cells := sr.cells }
    (remove_all_conflictsH h1 sr1 row col num, some sr1)

/-- `solution_is_possible`, heap level. -/
def solution_is_possibleH (h : PyHeap) (sr : StateRef) : Bool :=
  (List.range 9).all (fun row =>
    (List.range 9).all (fun col => !(entryH h sr row col).has_conflict))

/-- One pass of the `propagate` scan, heap level. -/
def scanAuxH : List (Nat × Nat) → PyHeap → StateRef → PyHeap × Option (StateRef × Bool)
  | [], h, sr => (h, some (sr, false))
  | (ri, ci) :: rest, h, sr =>
    if (entryH h sr ri ci).is_fixed = false ∧ (entryH h sr ri ci).width = 1 then
      match add_numberH h sr ri ci ((entryH h sr ri ci).values.headD 0) with
      | (h', none) => (h', none)
      | (h', some sr') =>
        if solution_is_possibleH h' sr' then (h', some (sr', true))
        else scanAuxH rest h' sr'
    else scanAuxH rest h sr

/-- `propagate`, heap level, fuel-indexed like `SudokuState.propagateAux`. -/
def propagateAuxH : Nat → PyHeap → StateRef → PyHeap × Option StateRef
  | 0, h, _ => (h, none)
  | fuel + 1, h, sr =>
    match scanAuxH allCells h sr with
    | (h', none) => (h', none)
    | (h', some (sr', false)) => (h', some sr')
    | (h', some (sr', true)) => propagateAuxH fuel h' sr'

/-- `propagate`, heap level. -/
def propagateH (h : PyHeap) (sr : StateRef) : PyHeap × Option StateRef :=
  propagateAuxH 82 h sr

/-- `copy.deepcopy(self)`, heap level: append copies of the 81 entry objects
to the heap and return a state holding the 81 fresh addresses. -/
def deepcopyH (h : PyHeap) (sr : StateRef) : PyHeap × StateRef :=
  (h ++ (List.range 9).flatMap (fun r => (List.range 9).map (fun c => entryH h sr r c)),
    { num_placed := sr.num_placed
      cells := (List.range 9).map (fun r =>
        (List.range 9).map (fun c => List.length h + 9 * r + c)) })

/-- The loop of `next_states`, heap level: each iteration deep-copies the
parent, then works exclusively through the copy's fresh addresses. -/
def branchesH (row col : Nat) : List Nat → PyHeap → StateRef → PyHeap × Option (List StateRef)
  | [], h, _ => (h, some [])
  | value :: rest, h, sr =>
    let hc := deepcopyH h sr
    match add_numberH hc.1 hc.2 row col value with
    | (h2, none) => (h2, none)
    | (h2, some c1) =>
      match propagateH h2 c1 with
      | (h3, none) => (h3, none)
      | (h3, some c2) =>
        match branchesH row col rest h3 sr with
        | (h4, none) => (h4, none)
        | (h4, some tail) =>
          (h4, some (if solution_is_possibleH h3 c2 then c2 :: tail else tail))

/-- `get_most_constrained_cell`, heap level (same scan as the plain model,
reading entries through the heap). -/
def get_most_constrained_cellH (h : PyHeap) (sr : StateRef) : Option (Nat × Nat) :=
  (mccGen (entryH h sr) allCells 9 none).2

/-- `next_states`, heap level. -/
def next_statesH (h : PyHeap) (sr : StateRef) : PyHeap × Option (List StateRef) :=
  match get_most_constrained_cellH h sr with
  | none => (h, none)
  | some (row, col) => branchesH row col (entryH h sr row col).values h sr

/-! ### Concrete boards used by witnesses and counterexamples -/

/-- A row of nine fresh entries. -/
def openRow : List SudokuEntry :=
  (List.range 9).map (fun _ => SudokuEntry.init)

/-- An unfixed entry with the given remaining domain. -/
def unfixedE (d : List Nat) : SudokuEntry :=
  { fixed := false, domain := d }

/-- A fixed entry holding `n`. -/
def fixedE (n : Nat) : SudokuEntry :=
  { fixed := true, domain := [n] }

/-- A board whose first row is `[5] [5] [5,7] _ _ _ _ _ _` and whose other
rows are fresh.  Scanning it, `propagate` fixes 5 at `(0, 0)`, which empties
the domain of `(0, 1)` (board impossible) and leaves `(0, 2)` with the
single value 7 — which the continuing scan then also fixes. -/
def contBoard : SudokuState :=
  { num_placed := 0
    board := [unfixedE [5], unfixedE [5], unfixedE [5, 7],
        SudokuEntry.init, SudokuEntry.init, SudokuEntry.init,
        SudokuEntry.init, SudokuEntry.init, SudokuEntry.init] ::
      (List.range 8).map (fun _ => openRow) }

/-- A board whose first row is `[5,7] [5] _ [5] _ _ _ _ _` and whose other
rows are fresh.  `propagate` fixes 5 at `(0, 1)`, which empties `(0, 3)`
(board impossible) and shrinks `(0, 0)` — already behind the scan — to the
single value 7; the pass ends without revisiting it, so a second
`propagate` call changes the board again. -/
def twoPassBoard : SudokuState :=
  { num_placed := 0
    board := [unfixedE [5, 7], unfixedE [5], SudokuEntry.init, unfixedE [5],
        SudokuEntry.init, SudokuEntry.init, SudokuEntry.init,
        SudokuEntry.init, SudokuEntry.init] ::
      (List.range 8).map (fun _ => openRow) }

/-- A board whose only non-fresh cell is `(0, 0)` with the single remaining
value 5: a forced cell whose fixing keeps the board possible, so the
`propagate` scan recurses. -/
def forcedBoard : SudokuState :=
  { num_placed := 0
    board := [unfixedE [5], SudokuEntry.init, SudokuEntry.init,
        SudokuEntry.init, SudokuEntry.init, SudokuEntry.init,
        SudokuEntry.init, SudokuEntry.init, SudokuEntry.init] ::
      (List.range 8).map (fun _ => openRow) }

/-- A row of nine fixed entries holding the given digits. -/
def fixedRow (l : List Nat) : List SudokuEntry :=
  l.map fixedE

/-- The completed board documented in the source as the unique solution of
`problem1`; all 81 cells fixed. -/
def solvedBoard : SudokuState :=
  { num_placed := 81
    board := [fixedRow [4, 7, 2, 6, 8, 3, 5, 1, 9],
      fixedRow [3, 1, 9, 7, 5, 4, 2, 6, 8],
      fixedRow [5, 6, 8, 9, 1, 2, 3, 4, 7],
      fixedRow [1, 4, 3, 5, 6, 7, 8, 9, 2],
      fixedRow [2, 9, 5, 1, 4, 8, 6, 7, 3],
      fixedRow [7, 8, 6, 3, 2, 9, 1, 5, 4],
      fixedRow [6, 2, 4, 8, 9, 5, 7, 3, 1],
      fixedRow [8, 5, 7, 4, 3, 1, 9, 2, 6],
      fixedRow [9, 3, 1, 2, 7, 6, 4, 8, 5]] }

/-- A board with one empty domain (at `(0, 0)`): a dead end. -/
def deadBoard : SudokuState :=
  { num_placed := 0
    board := [unfixedE [] :: (List.range 8).map (fun _ => SudokuEntry.init)] ++
      (List.range 8).map (fun _ => openRow) }

/-- An 81-object heap holding a fresh empty board. -/
def heap81 : PyHeap :=
  (List.range 81).map (fun _ => SudokuEntry.init)

/-- The state object owning the 81 addresses of `heap81`, row-major. -/
def sr81 : StateRef :=
  { num_placed := 0
    cells := (List.range 9).map (fun r => (List.range 9).map (fun c => 9 * r + c)) }

set_option maxRecDepth 10000

/-! ### Generic list facts -/

lemma list_set_oob {α : Type} : ∀ (l : List α) (i : Nat) (a : α), l.length ≤ i → l.set i a = l
  | [], _, _, _ => rfl
  | _ :: _, 0, _, h => by simp at h
  | x :: l, i + 1, a, h => congrArg (List.cons x) (list_set_oob l i a (by simpa using h))

lemma list_getD_set_self {α : Type} (l : List α) (i : Nat) (a d : α) (h : i < l.length) :
    (l.set i a).getD i d = a := by
  rw [List.getD_eq_getElem _ _ (by simpa using h)]
  simp [List.getElem_set]

lemma list_getD_set_ne {α : Type} (l : List α) (i j : Nat) (a d : α) (h : i ≠ j) :
    (l.set i a).getD j d = l.getD j d := by
  rcases Nat.lt_or_ge j l.length with hj | hj
  · rw [List.getD_eq_getElem _ _ (by simpa using hj), List.getD_eq_getElem _ _ hj]
    simp [List.getElem_set, h]
  · rw [List.getD_eq_default _ _ (by simpa using hj), List.getD_eq_default _ _ hj]

lemma list_getD_append_left {α : Type} (l t : List α) (a : Nat) (d : α) (h : a < l.length) :
    (l ++ t).getD a d = l.getD a d := by
  rw [List.getD_eq_getElem _ _ (by simp; omega), List.getD_eq_getElem _ _ h]
  exact List.getElem_append_left h

lemma list_foldl_if_filter {α σ : Type} (f : σ → α → σ) (c : α → Prop) [DecidablePred c] :
    ∀ (l : List α) (s : σ),
      l.foldl (fun t p => if c p then f t p else t) s = (l.filter (fun p => decide (c p))).foldl f s
  | [], _ => rfl
  | a :: l, s => by
    by_cases h : c a <;>
      simp [List.filter_cons, h, list_foldl_if_filter f c l]

lemma list_foldl_flatMap {α β σ : Type} (f : σ → α → σ) (g : β → List α) :
    ∀ (l : List β) (s : σ),
      (l.flatMap g).foldl f s = l.foldl (fun t b => (g b).foldl f t) s
  | [], _ => rfl
  | b :: l, s => by
    simp only [List.flatMap_cons, List.foldl_append, List.foldl_cons]
    exact list_foldl_flatMap f g l _

lemma list_countP_eq_of_agree {α : Type} (p q : α → Bool) :
    ∀ l : List α, (∀ x ∈ l, q x = p x) → l.countP q = l.countP p
  | [], _ => rfl
  | a :: l, h => by
    simp only [List.countP_cons, h a (by simp),
      list_countP_eq_of_agree p q l (fun x hx => h x (by simp [hx]))]

lemma list_countP_le_of_imp {α : Type} (p q : α → Bool) :
    ∀ l : List α, (∀ x ∈ l, q x = true → p x = true) → l.countP q ≤ l.countP p
  | [], _ => Nat.le_refl _
  | a :: l, h => by
    have ih := list_countP_le_of_imp p q l (fun x hx => h x (by simp [hx]))
    by_cases hq : q a = true
    · simp only [List.countP_cons, hq, h a (by simp) hq, if_true]
      omega
    · rw [List.countP_cons, List.countP_cons, if_neg hq]
      split <;> omega

lemma list_countP_flip_succ {α : Type} [DecidableEq α] (p q : α → Bool) (x0 : α) :
    ∀ l : List α, l.Nodup → x0 ∈ l → p x0 = false → q x0 = true →
      (∀ x ∈ l, x ≠ x0 → q x = p x) → l.countP q = l.countP p + 1
  | [], _, hx, _, _, _ => by cases hx
  | a :: l, hnd, hx, hp, hq, hagree => by
    rcases List.mem_cons.mp hx with rfl | hx'
    · have hagree' : ∀ x ∈ l, q x = p x := by
        intro x hxl
        exact hagree x (by simp [hxl]) (fun h => (List.nodup_cons.mp hnd).1 (h ▸ hxl))
      simp [List.countP_cons, hp, hq, list_countP_eq_of_agree p q l hagree']
    · have hne : a ≠ x0 := fun h => (List.nodup_cons.mp hnd).1 (h ▸ hx')
      have ih := list_countP_flip_succ p q x0 l (List.nodup_cons.mp hnd).2 hx' hp hq
        (fun x hxl => hagree x (by simp [hxl]))
      simp only [List.countP_cons, ih, hagree a (by simp) hne]
      omega

lemma list_countP_lt_exists {α : Type} (p : α → Bool) (l : List α)
    (h : l.countP p < l.length) : ∃ x ∈ l, p x = false := by
  by_contra hc
  push_neg at hc
  have : ∀ x ∈ l, p x = true := by
    intro x hx
    have := hc x hx
    revert this
    cases p x <;> simp
  exact absurd (List.countP_eq_length.mpr this) (by omega)

/-! ### `allCells` facts -/

lemma mem_allCells {p : Nat × Nat} : p ∈ allCells ↔ p.1 < 9 ∧ p.2 < 9 := by
  obtain ⟨a, b⟩ := p
  simp [allCells, List.mem_flatMap, List.mem_map, List.mem_range]

lemma allCells_nodup : allCells.Nodup := by decide

lemma allCells_length : allCells.length = 81 := by decide

lemma allCells_rowMajor :
    List.Pairwise (fun a b : Nat × Nat => 9 * a.1 + a.2 < 9 * b.1 + b.2) allCells := by
  decide

/-! ### `entry` and `setEntry` -/

lemma SudokuState.entry_setEntry (s : SudokuState) (r c : Nat) (e : SudokuEntry) (r' c' : Nat) :
    (s.setEntry r c e).entry r' c' =
      if r = r' ∧ c = c' ∧ r < s.board.length ∧ c < (s.board.getD r []).length then e
      else s.entry r' c' := by
  unfold SudokuState.setEntry SudokuState.entry
  simp only
  rcases Nat.lt_or_ge r s.board.length with hr | hr
  · rcases eq_or_ne r r' with rfl | hrne
    · rw [list_getD_set_self _ _ _ _ hr]
      rcases Nat.lt_or_ge c (s.board.getD r []).length with hc | hc
      · rcases eq_or_ne c c' with rfl | hcne
        · rw [list_getD_set_self _ _ _ _ hc, if_pos ⟨rfl, rfl, hr, hc⟩]
        · rw [list_getD_set_ne _ _ _ _ _ hcne]
          simp [hcne]
      · rw [list_set_oob _ _ _ hc]
        simp only [true_and]
        have : ¬(c = c' ∧ r < s.board.length ∧ c < (s.board.getD r []).length) := by
          rintro ⟨_, _, hlt⟩; omega
        rw [if_neg this]
    · rw [list_getD_set_ne _ _ _ _ _ hrne]
      simp [hrne]
  · rw [list_set_oob _ _ _ hr]
    have : ¬(r = r' ∧ c = c' ∧ r < s.board.length ∧ c < (s.board.getD r []).length) := by
      rintro ⟨_, _, hlt, _⟩; omega
    rw [if_neg this]

lemma SudokuState.num_setEntry (s : SudokuState) (r c : Nat) (e : SudokuEntry) :
    (s.setEntry r c e).num_placed = s.num_placed := rfl

lemma SudokuState.board_length_setEntry (s : SudokuState) (r c : Nat) (e : SudokuEntry) :
    (s.setEntry r c e).board.length = s.board.length := by
  simp [SudokuState.setEntry]

lemma SudokuState.row_length_setEntry (s : SudokuState) (r c : Nat) (e : SudokuEntry) (i : Nat) :
    ((s.setEntry r c e).board.getD i []).length = (s.board.getD i []).length := by
  unfold SudokuState.setEntry
  simp only
  rcases eq_or_ne r i with rfl | hne
  · rcases Nat.lt_or_ge r s.board.length with hr | hr
    · rw [list_getD_set_self _ _ _ _ hr]
      simp
    · rw [list_set_oob _ _ _ hr]
  · rw [list_getD_set_ne _ _ _ _ _ hne]

lemma SudokuState.shape_setEntry (s : SudokuState) (r c : Nat) (e : SudokuEntry)
    (h : s.Shape) : (s.setEntry r c e).Shape := by
  obtain ⟨h1, h2⟩ := h
  rcases Nat.lt_or_ge r s.board.length with hr | hr
  · constructor
    · rw [s.board_length_setEntry r c e, h1]
    · intro row hrow
      unfold SudokuState.setEntry at hrow
      simp only at hrow
      rcases List.mem_or_eq_of_mem_set hrow with hmem | rfl
      · exact h2 _ hmem
      · rw [List.length_set]
        refine h2 _ ?_
        rw [List.getD_eq_getElem _ _ hr]
        exact List.getElem_mem hr
  · unfold SudokuState.setEntry
    rw [list_set_oob _ _ _ hr]
    exact ⟨h1, h2⟩

/-! ### `remove_conflict` -/

lemma SudokuState.remove_conflict_eq_of_unfixed (s : SudokuState) (row col num : Nat)
    (h : (s.entry row col).is_fixed = false) :
    s.remove_conflict row col num =
      s.setEntry row col
        { fixed := (s.entry row col).fixed, domain := (s.entry row col).domain.erase num } := by
  have hf : (s.entry row col).fixed = false := h
  unfold SudokuState.remove_conflict
  rw [if_pos h]
  unfold SudokuEntry.eliminate
  by_cases hmem : num ∈ (s.entry row col).domain
  · rw [if_pos hmem, hf]
    simp
  · rw [if_neg hmem]
    simp [List.erase_of_not_mem hmem]

lemma SudokuState.remove_conflict_eq_of_fixed (s : SudokuState) (row col num : Nat)
    (h : (s.entry row col).is_fixed = true) :
    s.remove_conflict row col num = s := by
  unfold SudokuState.remove_conflict
  rw [if_neg (by simp [h])]

lemma SudokuState.flag_remove_conflict (s : SudokuState) (row col num a b : Nat) :
    ((s.remove_conflict row col num).entry a b).fixed = (s.entry a b).fixed := by
  rcases Bool.eq_false_or_eq_true ((s.entry row col).is_fixed) with h | h
  · rw [s.remove_conflict_eq_of_fixed row col num h]
  · rw [s.remove_conflict_eq_of_unfixed row col num h, SudokuState.entry_setEntry]
    split
    · rename_i hc
      obtain ⟨rfl, rfl, -⟩ := hc
      rfl
    · rfl

lemma SudokuState.domain_remove_conflict_sublist (s : SudokuState) (row col num a b : Nat) :
    List.Sublist ((s.remove_conflict row col num).entry a b).domain (s.entry a b).domain := by
  rcases Bool.eq_false_or_eq_true ((s.entry row col).is_fixed) with h | h
  · rw [s.remove_conflict_eq_of_fixed row col num h]
  · rw [s.remove_conflict_eq_of_unfixed row col num h, SudokuState.entry_setEntry]
    split
    · rename_i hc
      obtain ⟨rfl, rfl, -⟩ := hc
      exact List.erase_sublist num _
    · exact List.Sublist.refl _

lemma SudokuState.remove_conflict_entry_of_ne (s : SudokuState) (row col num a b : Nat)
    (h : ¬(row = a ∧ col = b)) :
    (s.remove_conflict row col num).entry a b = s.entry a b := by
  rcases Bool.eq_false_or_eq_true ((s.entry row col).is_fixed) with hf | hf
  · rw [s.remove_conflict_eq_of_fixed row col num hf]
  · rw [s.remove_conflict_eq_of_unfixed row col num hf, SudokuState.entry_setEntry,
      if_neg (by tauto)]

lemma SudokuState.remove_conflict_entry_of_fixed (s : SudokuState) (row col num a b : Nat)
    (h : (s.entry a b).is_fixed = true) :
    (s.remove_conflict row col num).entry a b = s.entry a b := by
  by_cases hab : row = a ∧ col = b
  · obtain ⟨rfl, rfl⟩ := hab
    rw [s.remove_conflict_eq_of_fixed row col num h]
  · exact s.remove_conflict_entry_of_ne row col num a b hab

lemma SudokuState.remove_conflict_hit (s : SudokuState) (row col num : Nat)
    (h : (s.entry row col).is_fixed = false)
    (hr : row < s.board.length) (hc : col < (s.board.getD row []).length) :
    (s.remove_conflict row col num).entry row col =
      { fixed := (s.entry row col).fixed, domain := (s.entry row col).domain.erase num } := by
  rw [s.remove_conflict_eq_of_unfixed row col num h, SudokuState.entry_setEntry,
    if_pos ⟨rfl, rfl, hr, hc⟩]

lemma SudokuState.num_remove_conflict (s : SudokuState) (row col num : Nat) :
    (s.remove_conflict row col num).num_placed = s.num_placed := by
  rcases Bool.eq_false_or_eq_true ((s.entry row col).is_fixed) with h | h
  · rw [s.remove_conflict_eq_of_fixed row col num h]
  · rw [s.remove_conflict_eq_of_unfixed row col num h]
    rfl

lemma SudokuState.board_length_remove_conflict (s : SudokuState) (row col num : Nat) :
    (s.remove_conflict row col num).board.length = s.board.length := by
  rcases Bool.eq_false_or_eq_true ((s.entry row col).is_fixed) with h | h
  · rw [s.remove_conflict_eq_of_fixed row col num h]
  · rw [s.remove_conflict_eq_of_unfixed row col num h]
    exact s.board_length_setEntry _ _ _

lemma SudokuState.row_length_remove_conflict (s : SudokuState) (row col num i : Nat) :
    ((s.remove_conflict row col num).board.getD i []).length = (s.board.getD i []).length := by
  rcases Bool.eq_false_or_eq_true ((s.entry row col).is_fixed) with h | h
  · rw [s.remove_conflict_eq_of_fixed row col num h]
  · rw [s.remove_conflict_eq_of_unfixed row col num h]
    exact s.row_length_setEntry _ _ _ _

lemma SudokuState.shape_remove_conflict (s : SudokuState) (row col num : Nat)
    (h : s.Shape) : (s.remove_conflict row col num).Shape := by
  rcases Bool.eq_false_or_eq_true ((s.entry row col).is_fixed) with hf | hf
  · rw [s.remove_conflict_eq_of_fixed row col num hf]
    exact h
  · rw [s.remove_conflict_eq_of_unfixed row col num hf]
    exact s.shape_setEntry _ _ _ h

/-! ### Folds of `remove_conflict` over a list of positions -/

lemma SudokuState.flag_elimFold (num : Nat) :
    ∀ (ps : List (Nat × Nat)) (s : SudokuState) (a b : Nat),
      ((ps.foldl (fun t p => t.remove_conflict p.1 p.2 num) s).entry a b).fixed =
        (s.entry a b).fixed
  | [], _, _, _ => rfl
  | p :: ps, s, a, b => by
    rw [List.foldl_cons, SudokuState.flag_elimFold num ps _ a b,
      s.flag_remove_conflict p.1 p.2 num a b]

lemma SudokuState.domain_elimFold_sublist (num : Nat) :
    ∀ (ps : List (Nat × Nat)) (s : SudokuState) (a b : Nat),
      List.Sublist ((ps.foldl (fun t p => t.remove_conflict p.1 p.2 num) s).entry a b).domain
        ((s.entry a b).domain)
  | [], _, _, _ => List.Sublist.refl _
  | p :: ps, s, a, b => by
    rw [List.foldl_cons]
    exact (SudokuState.domain_elimFold_sublist num ps _ a b).trans
      (s.domain_remove_conflict_sublist p.1 p.2 num a b)

lemma SudokuState.elimFold_entry_of_fixed (num : Nat) :
    ∀ (ps : List (Nat × Nat)) (s : SudokuState) (a b : Nat),
      (s.entry a b).is_fixed = true →
      (ps.foldl (fun t p => t.remove_conflict p.1 p.2 num) s).entry a b = s.entry a b
  | [], _, _, _, _ => rfl
  | p :: ps, s, a, b, h => by
    rw [List.foldl_cons]
    have h1 := s.remove_conflict_entry_of_fixed p.1 p.2 num a b h
    rw [SudokuState.elimFold_entry_of_fixed num ps _ a b (by rw [h1]; exact h), h1]

lemma SudokuState.elimFold_entry_of_not_mem (num : Nat) :
    ∀ (ps : List (Nat × Nat)) (s : SudokuState) (a b : Nat),
      (a, b) ∉ ps →
      (ps.foldl (fun t p => t.remove_conflict p.1 p.2 num) s).entry a b = s.entry a b
  | [], _, _, _, _ => rfl
  | p :: ps, s, a, b, h => by
    rw [List.foldl_cons]
    have hne : ¬(p.1 = a ∧ p.2 = b) := by
      rintro ⟨h1, h2⟩
      exact h (by simp [List.mem_cons]; left; ext <;> simp [h1, h2])
    rw [SudokuState.elimFold_entry_of_not_mem num ps _ a b (fun hm => h (by simp [hm])),
      s.remove_conflict_entry_of_ne p.1 p.2 num a b hne]

lemma SudokuState.num_elimFold (num : Nat) :
    ∀ (ps : List (Nat × Nat)) (s : SudokuState),
      (ps.foldl (fun t p => t.remove_conflict p.1 p.2 num) s).num_placed = s.num_placed
  | [], _ => rfl
  | p :: ps, s => by
    rw [List.foldl_cons, SudokuState.num_elimFold num ps _, s.num_remove_conflict p.1 p.2 num]

lemma SudokuState.board_length_elimFold (num : Nat) :
    ∀ (ps : List (Nat × Nat)) (s : SudokuState),
      (ps.foldl (fun t p => t.remove_conflict p.1 p.2 num) s).board.length = s.board.length
  | [], _ => rfl
  | p :: ps, s => by
    rw [List.foldl_cons, SudokuState.board_length_elimFold num ps _,
      s.board_length_remove_conflict p.1 p.2 num]

lemma SudokuState.row_length_elimFold (num : Nat) :
    ∀ (ps : List (Nat × Nat)) (s : SudokuState) (i : Nat),
      ((ps.foldl (fun t p => t.remove_conflict p.1 p.2 num) s).board.getD i []).length =
        (s.board.getD i []).length
  | [], _, _ => rfl
  | p :: ps, s, i => by
    rw [List.foldl_cons, SudokuState.row_length_elimFold num ps _ i,
      s.row_length_remove_conflict p.1 p.2 num i]

lemma SudokuState.shape_elimFold (num : Nat) :
    ∀ (ps : List (Nat × Nat)) (s : SudokuState),
      s.Shape → (ps.foldl (fun t p => t.remove_conflict p.1 p.2 num) s).Shape
  | [], _, h => h
  | p :: ps, s, h => by
    rw [List.foldl_cons]
    exact SudokuState.shape_elimFold num ps _ (s.shape_remove_conflict p.1 p.2 num h)

lemma SudokuState.elimFold_hit (num : Nat) :
    ∀ (ps : List (Nat × Nat)) (s : SudokuState) (a b : Nat),
      (a, b) ∈ ps →
      (s.entry a b).is_fixed = false →
      a < s.board.length → b < (s.board.getD a []).length →
      ((s.entry a b).domain).Nodup →
      num ∉ ((ps.foldl (fun t p => t.remove_conflict p.1 p.2 num) s).entry a b).domain
  | [], _, _, _, hm, _, _, _, _ => by cases hm
  | p :: ps, s, a, b, hm, hunf, ha, hb, hnd => by
    rw [List.foldl_cons]
    by_cases hp : p = (a, b)
    · subst hp
      have hhit := s.remove_conflict_hit a b num hunf ha hb
      intro hmem
      have hsub := SudokuState.domain_elimFold_sublist num ps (s.remove_conflict a b num) a b
      have := hsub.subset hmem
      rw [hhit] at this
      simp only at this
      exact absurd ((hnd.mem_erase_iff).mp this).1 (by simp)
    · have hne : ¬(p.1 = a ∧ p.2 = b) := by
        rintro ⟨h1, h2⟩
        exact hp (by ext <;> simp [h1, h2])
      have heq := s.remove_conflict_entry_of_ne p.1 p.2 num a b hne
      refine SudokuState.elimFold_hit num ps _ a b ?_ ?_ ?_ ?_ ?_
      · rcases List.mem_cons.mp hm with h | h
        · exact absurd h.symm hp
        · exact h
      · rw [heq]; exact hunf
      · rw [s.board_length_remove_conflict p.1 p.2 num]; exact ha
      · rw [s.row_length_remove_conflict p.1 p.2 num]; exact hb
      · rw [heq]; exact hnd

/-! ### `remove_all_conflicts` as one fold -/

lemma SudokuState.rac_eq (s : SudokuState) (row col num : Nat) :
    s.remove_all_conflicts row col num =
      (conflictCells row col).foldl (fun t p => t.remove_conflict p.1 p.2 num) s := by
  unfold SudokuState.remove_all_conflicts conflictCells
  simp only [SudokuState.size, SudokuState.get_subgrid_number]
  rw [List.foldl_append, List.foldl_append, List.foldl_map, List.foldl_map,
    list_foldl_flatMap]
  refine List.foldl_ext _ _ _ (fun t k _ => ?_)
  have hinner := list_foldl_if_filter (fun u l => u.remove_conflict k l num)
    (fun l => k / 3 * 3 + l / 3 + 1 = row / 3 * 3 + col / 3 + 1) (List.range 9) t
  rw [hinner, List.foldl_map]

lemma mem_conflictCells {row col a b : Nat} :
    (a, b) ∈ conflictCells row col ↔
      (a < 9 ∧ b = col) ∨ (a = row ∧ b < 9) ∨
        (a < 9 ∧ b < 9 ∧ a / 3 * 3 + b / 3 + 1 = row / 3 * 3 + col / 3 + 1) := by
  simp only [conflictCells, List.mem_append, List.mem_map, List.mem_flatMap,
    List.mem_filter, List.mem_range, Prod.mk.injEq]
  constructor
  · rintro ((⟨i, hi, rfl, rfl⟩ | ⟨j, hj, rfl, rfl⟩) | ⟨k, hk, l, ⟨hl, hsub⟩, rfl, rfl⟩)
    · exact Or.inl ⟨hi, rfl⟩
    · exact Or.inr (Or.inl ⟨rfl, hj⟩)
    · exact Or.inr (Or.inr ⟨hk, hl, by simpa using hsub⟩)
  · rintro (⟨ha, rfl⟩ | ⟨rfl, hb⟩ | ⟨ha, hb, hsub⟩)
    · exact Or.inl (Or.inl ⟨a, ha, rfl, rfl⟩)
    · exact Or.inl (Or.inr ⟨b, hb, rfl, rfl⟩)
    · exact Or.inr ⟨a, ha, b, ⟨hb, by simpa using hsub⟩, rfl, rfl⟩

lemma SudokuState.flag_rac (s : SudokuState) (row col num a b : Nat) :
    ((s.remove_all_conflicts row col num).entry a b).fixed = (s.entry a b).fixed := by
  rw [s.rac_eq row col num]
  exact SudokuState.flag_elimFold num _ s a b

lemma SudokuState.domain_rac_sublist (s : SudokuState) (row col num a b : Nat) :
    List.Sublist ((s.remove_all_conflicts row col num).entry a b).domain
      ((s.entry a b).domain) := by
  rw [s.rac_eq row col num]
  exact SudokuState.domain_elimFold_sublist num _ s a b

lemma SudokuState.rac_entry_of_fixed (s : SudokuState) (row col num a b : Nat)
    (h : (s.entry a b).is_fixed = true) :
    (s.remove_all_conflicts row col num).entry a b = s.entry a b := by
  rw [s.rac_eq row col num]
  exact SudokuState.elimFold_entry_of_fixed num _ s a b h

lemma SudokuState.num_rac (s : SudokuState) (row col num : Nat) :
    (s.remove_all_conflicts row col num).num_placed = s.num_placed := by
  rw [s.rac_eq row col num]
  exact SudokuState.num_elimFold num _ s

lemma SudokuState.board_length_rac (s : SudokuState) (row col num : Nat) :
    (s.remove_all_conflicts row col num).board.length = s.board.length := by
  rw [s.rac_eq row col num]
  exact SudokuState.board_length_elimFold num _ s

lemma SudokuState.row_length_rac (s : SudokuState) (row col num i : Nat) :
    ((s.remove_all_conflicts row col num).board.getD i []).length =
      (s.board.getD i []).length := by
  rw [s.rac_eq row col num]
  exact SudokuState.row_length_elimFold num _ s i

lemma SudokuState.shape_rac (s : SudokuState) (row col num : Nat) (h : s.Shape) :
    (s.remove_all_conflicts row col num).Shape := by
  rw [s.rac_eq row col num]
  exact SudokuState.shape_elimFold num _ s h

lemma SudokuState.rac_hit (s : SudokuState) (row col num a b : Nat)
    (hmem : (a, b) ∈ conflictCells row col)
    (hunf : (s.entry a b).is_fixed = false)
    (ha : a < s.board.length) (hb : b < (s.board.getD a []).length)
    (hnd : ((s.entry a b).domain).Nodup) :
    num ∉ ((s.remove_all_conflicts row col num).entry a b).domain := by
  rw [s.rac_eq row col num]
  exact SudokuState.elimFold_hit num _ s a b hmem hunf ha hb hnd

/-! ### `add_number` -/

lemma SudokuState.add_number_eq (s : SudokuState) (row col num : Nat)
    (hmem : num ∈ (s.entry row col).domain) :
    s.add_number row col num = some
      (({ s.setEntry row col { fixed := true, domain := [num] } with
          num_placed := s.num_placed + 1 }).remove_all_conflicts row col num) := by
  unfold SudokuState.add_number SudokuEntry.fix
  rw [if_pos hmem]
  rfl

lemma SudokuState.entry_midState (s : SudokuState) (row col : Nat) (e : SudokuEntry)
    (n a b : Nat) :
    ({ s.setEntry row col e with num_placed := n }).entry a b =
      (s.setEntry row col e).entry a b := rfl

lemma SudokuState.add_number_flag_other (s : SudokuState) (row col num a b : Nat)
    (hne : ¬(row = a ∧ col = b)) :
    ((({ s.setEntry row col { fixed := true, domain := [num] } with
        num_placed := s.num_placed + 1 }).remove_all_conflicts row col num).entry a b).fixed =
      ((s.entry a b)).fixed := by
  rw [SudokuState.flag_rac, SudokuState.entry_midState, SudokuState.entry_setEntry,
    if_neg (by tauto)]

lemma SudokuState.add_number_target (s : SudokuState) (row col num : Nat)
    (ha : row < s.board.length) (hb : col < (s.board.getD row []).length) :
    (({ s.setEntry row col { fixed := true, domain := [num] } with
        num_placed := s.num_placed + 1 }).remove_all_conflicts row col num).entry row col =
      { fixed := true, domain := [num] } := by
  have hmid : ({ s.setEntry row col { fixed := true, domain := [num] } with
      num_placed := s.num_placed + 1 }).entry row col = { fixed := true, domain := [num] } := by
    rw [SudokuState.entry_midState, SudokuState.entry_setEntry, if_pos ⟨rfl, rfl, ha, hb⟩]
  rw [SudokuState.rac_entry_of_fixed _ _ _ _ _ _ (by rw [hmid]; rfl), hmid]

lemma SudokuState.add_number_num (s : SudokuState) (row col num : Nat) :
    (({ s.setEntry row col { fixed := true, domain := [num] } with
        num_placed := s.num_placed + 1 }).remove_all_conflicts row col num).num_placed =
      s.num_placed + 1 := by
  rw [SudokuState.num_rac]

lemma SudokuState.add_number_domain_sublist (s : SudokuState) (row col num a b : Nat)
    (hmem : num ∈ (s.entry row col).domain) :
    List.Sublist
      ((((({ s.setEntry row col { fixed := true, domain := [num] } with
          num_placed := s.num_placed + 1 }).remove_all_conflicts row col num)).entry a b).domain)
      ((s.entry a b).domain) := by
  refine (SudokuState.domain_rac_sublist _ row col num a b).trans ?_
  rw [SudokuState.entry_midState, SudokuState.entry_setEntry]
  split
  · rename_i hc
    obtain ⟨rfl, rfl, -⟩ := hc
    exact List.singleton_sublist.mpr hmem
  · exact List.Sublist.refl _

lemma SudokuState.add_number_shape (s : SudokuState) (row col num : Nat) (h : s.Shape) :
    (({ s.setEntry row col { fixed := true, domain := [num] } with
        num_placed := s.num_placed + 1 }).remove_all_conflicts row col num).Shape := by
  refine SudokuState.shape_rac _ row col num ?_
  obtain ⟨h1, h2⟩ := s.shape_setEntry row col { fixed := true, domain := [num] } h
  exact ⟨h1, h2⟩

lemma SudokuState.add_number_board_length (s : SudokuState) (row col num : Nat) :
    (({ s.setEntry row col { fixed := true, domain := [num] } with
        num_placed := s.num_placed + 1 }).remove_all_conflicts row col num).board.length =
      s.board.length := by
  rw [SudokuState.board_length_rac]
  exact s.board_length_setEntry _ _ _

lemma SudokuState.add_number_row_length (s : SudokuState) (row col num i : Nat) :
    ((({ s.setEntry row col { fixed := true, domain := [num] } with
        num_placed := s.num_placed + 1 }).remove_all_conflicts row col num).board.getD i
        []).length = (s.board.getD i []).length := by
  rw [SudokuState.row_length_rac]
  exact s.row_length_setEntry _ _ _ _

lemma SudokuState.add_number_hit (s : SudokuState) (row col num a b : Nat)
    (hne : ¬(row = a ∧ col = b))
    (hcc : (a, b) ∈ conflictCells row col)
    (hunf : (s.entry a b).is_fixed = false)
    (ha : a < s.board.length) (hb : b < (s.board.getD a []).length)
    (hnd : ((s.entry a b).domain).Nodup) :
    num ∉ ((({ s.setEntry row col { fixed := true, domain := [num] } with
        num_placed := s.num_placed + 1 }).remove_all_conflicts row col num).entry a b).domain := by
  have hmid : ({ s.setEntry row col { fixed := true, domain := [num] } with
      num_placed := s.num_placed + 1 }).entry a b = s.entry a b := by
    rw [SudokuState.entry_midState, SudokuState.entry_setEntry, if_neg (by tauto)]
  refine SudokuState.rac_hit _ row col num a b hcc ?_ ?_ ?_ ?_
  · rw [hmid]; exact hunf
  · rw [s.board_length_setEntry]; exact ha
  · rw [s.row_length_setEntry]; exact hb
  · rw [hmid]; exact hnd

lemma SudokuState.add_number_entry_of_fixed (s : SudokuState) (row col num a b : Nat)
    (hne : ¬(row = a ∧ col = b)) (hfix : (s.entry a b).is_fixed = true) :
    (({ s.setEntry row col { fixed := true, domain := [num] } with
        num_placed := s.num_placed + 1 }).remove_all_conflicts row col num).entry a b =
      s.entry a b := by
  have hmid : ({ s.setEntry row col { fixed := true, domain := [num] } with
      num_placed := s.num_placed + 1 }).entry a b = s.entry a b := by
    rw [SudokuState.entry_midState, SudokuState.entry_setEntry, if_neg (by tauto)]
  rw [SudokuState.rac_entry_of_fixed _ _ _ _ _ _ (by rw [hmid]; exact hfix), hmid]

/-! ### Reading out-of-range cells, possibility, counting -/

lemma SudokuEntry.width_init : SudokuEntry.init.width = 9 := by
  simp [SudokuEntry.init, SudokuEntry.width]

lemma SudokuState.entry_oob (s : SudokuState) (r c : Nat)
    (h : ¬(r < s.board.length ∧ c < (s.board.getD r []).length)) :
    s.entry r c = SudokuEntry.init := by
  unfold SudokuState.entry
  rcases Nat.lt_or_ge r s.board.length with hr | hr
  · have hc : (s.board.getD r []).length ≤ c := by
      rcases Nat.lt_or_ge c (s.board.getD r []).length with h' | h'
      · exact absurd ⟨hr, h'⟩ h
      · exact h'
    exact List.getD_eq_default _ _ hc
  · rw [List.getD_eq_default _ _ hr]
    rfl

lemma SudokuState.readable_of_width_one (s : SudokuState) (r c : Nat)
    (h : (s.entry r c).width = 1) :
    r < s.board.length ∧ c < (s.board.getD r []).length := by
  by_contra hc
  rw [s.entry_oob r c hc, SudokuEntry.width_init] at h
  omega

lemma SudokuState.solution_is_possible_iff (s : SudokuState) :
    s.solution_is_possible = true ↔ ∀ r < 9, ∀ c < 9, (s.entry r c).domain ≠ [] := by
  unfold SudokuState.solution_is_possible SudokuEntry.has_conflict
  simp only [SudokuState.size, List.all_eq_true, List.mem_range, Bool.not_eq_eq_eq_not,
    Bool.not_true, beq_eq_false_iff_ne, ne_eq]
  constructor
  · intro h r hr c hc
    have := h r hr c hc
    intro hnil
    simp [hnil] at this
  · intro h r hr c hc
    have := h r hr c hc
    simp only [List.length_eq_zero]
    exact this

lemma SudokuState.impossible_iff (s : SudokuState) :
    s.solution_is_possible = false ↔ ∃ r, r < 9 ∧ ∃ c, c < 9 ∧ (s.entry r c).domain = [] := by
  rw [← Bool.not_eq_true, s.solution_is_possible_iff]
  push_neg
  constructor
  · rintro ⟨r, hr, c, hc, h⟩
    exact ⟨r, hr, c, hc, h⟩
  · rintro ⟨r, hr, c, hc, h⟩
    exact ⟨r, hr, c, hc, h⟩

lemma SudokuState.add_number_impossible_sticky (s : SudokuState) (row col num : Nat)
    (hmem : num ∈ (s.entry row col).domain)
    (h : s.solution_is_possible = false) :
    (({ s.setEntry row col { fixed := true, domain := [num] } with
        num_placed := s.num_placed + 1 }).remove_all_conflicts row col num).solution_is_possible
      = false := by
  rw [s.impossible_iff] at h
  obtain ⟨r, hr, c, hc, hnil⟩ := h
  rw [SudokuState.impossible_iff]
  refine ⟨r, hr, c, hc, ?_⟩
  have hsub := s.add_number_domain_sublist row col num r c hmem
  rw [hnil] at hsub
  exact List.sublist_nil.mp hsub

lemma SudokuState.add_number_fixedCount (s : SudokuState) (row col num : Nat)
    (hrow : row < 9) (hcol : col < 9)
    (ha : row < s.board.length) (hb : col < (s.board.getD row []).length)
    (hunf : (s.entry row col).is_fixed = false) :
    (({ s.setEntry row col { fixed := true, domain := [num] } with
        num_placed := s.num_placed + 1 }).remove_all_conflicts row col num).fixedCount =
      s.fixedCount + 1 := by
  unfold SudokuState.fixedCount
  refine list_countP_flip_succ _ _ (row, col) allCells allCells_nodup
    (mem_allCells.mpr ⟨hrow, hcol⟩) hunf ?_ ?_
  · show ((_ : SudokuState).entry row col).is_fixed = true
    rw [SudokuState.add_number_target s row col num ha hb]
    rfl
  · intro x _ hxne
    show ((_ : SudokuState).entry x.1 x.2).is_fixed = ((s.entry x.1 x.2)).is_fixed
    have hne' : ¬(row = x.1 ∧ col = x.2) := by
      rintro ⟨h1, h2⟩
      exact hxne (by ext <;> simp [h1.symm, h2.symm])
    simp only [SudokuEntry.is_fixed, s.add_number_flag_other row col num x.1 x.2 hne']

lemma SudokuState.add_number_unfixedCount (s : SudokuState) (row col num : Nat)
    (hrow : row < 9) (hcol : col < 9)
    (ha : row < s.board.length) (hb : col < (s.board.getD row []).length)
    (hunf : (s.entry row col).is_fixed = false) :
    s.unfixedCount =
      (({ s.setEntry row col { fixed := true, domain := [num] } with
        num_placed := s.num_placed + 1 }).remove_all_conflicts row col num).unfixedCount + 1 := by
  unfold SudokuState.unfixedCount
  refine list_countP_flip_succ _ _ (row, col) allCells allCells_nodup
    (mem_allCells.mpr ⟨hrow, hcol⟩) ?_ ?_ ?_
  · show (!((_ : SudokuState).entry row col).is_fixed) = false
    rw [SudokuState.add_number_target s row col num ha hb]
    rfl
  · show (!(s.entry row col).is_fixed) = true
    rw [hunf]
    rfl
  · intro x _ hxne
    show (!(s.entry x.1 x.2).is_fixed) = (!((_ : SudokuState).entry x.1 x.2).is_fixed)
    have hne' : ¬(row = x.1 ∧ col = x.2) := by
      rintro ⟨h1, h2⟩
      exact hxne (by ext <;> simp [h1.symm, h2.symm])
    simp only [SudokuEntry.is_fixed, s.add_number_flag_other row col num x.1 x.2 hne']

lemma SudokuEntry.ok_of_domain_sublist (e e' : SudokuEntry) (h : e.OK)
    (hsub : List.Sublist e'.domain e.domain) : e'.OK :=
  ⟨h.1.sublist hsub, h.2.1.sublist hsub, fun n hn => h.2.2 n (hsub.subset hn)⟩

lemma SudokuState.shape_row_length (s : SudokuState) (h : s.Shape) (r : Nat) (hr : r < 9) :
    (s.board.getD r []).length = 9 := by
  obtain ⟨h1, h2⟩ := h
  have hr' : r < s.board.length := by omega
  rw [List.getD_eq_getElem _ _ hr']
  exact h2 _ (List.getElem_mem hr')

lemma SudokuState.add_number_rep (s : SudokuState) (row col num : Nat)
    (hrep : s.Rep) (hrow : row < 9) (hcol : col < 9)
    (hmem : num ∈ (s.entry row col).domain) :
    (({ s.setEntry row col { fixed := true, domain := [num] } with
        num_placed := s.num_placed + 1 }).remove_all_conflicts row col num).Rep := by
  obtain ⟨hsh, hok⟩ := hrep
  have ha : row < s.board.length := by rw [hsh.1]; exact hrow
  have hb : col < (s.board.getD row []).length := by
    rw [s.shape_row_length ⟨hsh.1, hsh.2⟩ row hrow]; exact hcol
  refine ⟨s.add_number_shape row col num ⟨hsh.1, hsh.2⟩, ?_⟩
  intro a ha9 b hb9
  by_cases he : row = a ∧ col = b
  · obtain ⟨rfl, rfl⟩ := he
    rw [s.add_number_target row col num ha hb]
    refine ⟨by simp, by simp, ?_⟩
    intro n hn
    simp only [List.mem_singleton] at hn
    subst hn
    exact (hok row hrow col hcol).2.2 n hmem
  · exact SudokuEntry.ok_of_domain_sublist _ _ (hok a ha9 b hb9)
      (s.add_number_domain_sublist row col num a b hmem)

lemma SudokuState.add_number_counts (s : SudokuState) (row col num : Nat)
    (hsh : s.Shape) (hrow : row < 9) (hcol : col < 9)
    (hunf : (s.entry row col).is_fixed = false)
    (hc : s.Counts) :
    (({ s.setEntry row col { fixed := true, domain := [num] } with
        num_placed := s.num_placed + 1 }).remove_all_conflicts row col num).Counts := by
  have ha : row < s.board.length := by rw [hsh.1]; exact hrow
  have hb : col < (s.board.getD row []).length := by
    rw [s.shape_row_length hsh row hrow]; exact hcol
  constructor
  · rw [SudokuState.add_number_num, SudokuState.add_number_fixedCount s row col num
      hrow hcol ha hb hunf, hc.1]
  · intro a ha9 b hb9 hfix
    by_cases he : row = a ∧ col = b
    · obtain ⟨rfl, rfl⟩ := he
      rw [s.add_number_target row col num ha hb]
      rfl
    · have hflag := s.add_number_flag_other row col num a b he
      have hsf : (s.entry a b).is_fixed = true := by
        show (s.entry a b).fixed = true
        rw [← hflag]
        exact hfix
      rw [s.add_number_entry_of_fixed row col num a b he hsf]
      exact hc.2 a ha9 b hb9 hsf

/-! ### The `propagate` scan -/

lemma SudokuEntry.headD_mem_of_width_one (e : SudokuEntry) (h : e.width = 1) :
    (e.values.headD 0) ∈ e.domain := by
  obtain ⟨v, hv⟩ := List.length_eq_one.mp h
  rw [SudokuEntry.values, hv]
  simp

lemma SudokuState.add_number_addNum (s : SudokuState) (row col num : Nat)
    (hmem : num ∈ (s.entry row col).domain) :
    s.add_number row col num = some (s.addNum row col num) :=
  s.add_number_eq row col num hmem

lemma SudokuState.scanAux_cons_fix (s : SudokuState) (ri ci : Nat) (rest : List (Nat × Nat))
    (hg1 : (s.entry ri ci).is_fixed = false) (hg2 : (s.entry ri ci).width = 1) :
    SudokuState.scanAux ((ri, ci) :: rest) s =
      if (s.addNum ri ci ((s.entry ri ci).values.headD 0)).solution_is_possible
      then some ((s.addNum ri ci ((s.entry ri ci).values.headD 0)), true)
      else SudokuState.scanAux rest (s.addNum ri ci ((s.entry ri ci).values.headD 0)) := by
  rw [SudokuState.scanAux, if_pos ⟨hg1, hg2⟩,
    s.add_number_addNum ri ci _ (SudokuEntry.headD_mem_of_width_one _ hg2)]

lemma SudokuState.scanAux_cons_skip (s : SudokuState) (ri ci : Nat) (rest : List (Nat × Nat))
    (hg : ¬((s.entry ri ci).is_fixed = false ∧ (s.entry ri ci).width = 1)) :
    SudokuState.scanAux ((ri, ci) :: rest) s = SudokuState.scanAux rest s := by
  rw [SudokuState.scanAux, if_neg hg]

lemma SudokuState.scanAux_total :
    ∀ (ps : List (Nat × Nat)) (s : SudokuState), ∃ r, SudokuState.scanAux ps s = some r
  | [], s => ⟨(s, false), rfl⟩
  | (ri, ci) :: rest, s => by
    by_cases hg : (s.entry ri ci).is_fixed = false ∧ (s.entry ri ci).width = 1
    · rw [s.scanAux_cons_fix ri ci rest hg.1 hg.2]
      split
      · exact ⟨_, rfl⟩
      · exact SudokuState.scanAux_total rest _
    · rw [s.scanAux_cons_skip ri ci rest hg]
      exact SudokuState.scanAux_total rest s

lemma SudokuState.scanAux_num :
    ∀ (ps : List (Nat × Nat)) (s t : SudokuState) (b : Bool),
      SudokuState.scanAux ps s = some (t, b) →
      s.num_placed ≤ t.num_placed ∧ (b = true → s.num_placed < t.num_placed)
  | [], s, t, b, h => by
    rw [SudokuState.scanAux] at h
    simp only [Option.some.injEq, Prod.mk.injEq] at h
    obtain ⟨rfl, rfl⟩ := h
    exact ⟨Nat.le_refl _, fun hb => absurd hb (by simp)⟩
  | (ri, ci) :: rest, s, t, b, h => by
    by_cases hg : (s.entry ri ci).is_fixed = false ∧ (s.entry ri ci).width = 1
    · rw [s.scanAux_cons_fix ri ci rest hg.1 hg.2] at h
      have hnum : (s.addNum ri ci ((s.entry ri ci).values.headD 0)).num_placed =
          s.num_placed + 1 := SudokuState.add_number_num s ri ci _
      split at h
      · simp only [Option.some.injEq, Prod.mk.injEq] at h
        obtain ⟨rfl, rfl⟩ := h
        exact ⟨by omega, fun _ => by omega⟩
      · have ih := SudokuState.scanAux_num rest _ t b h
        exact ⟨by omega, fun _ => by omega⟩
    · rw [s.scanAux_cons_skip ri ci rest hg] at h
      exact SudokuState.scanAux_num rest s t b h

lemma SudokuState.scanAux_fixed_entry :
    ∀ (ps : List (Nat × Nat)) (s t : SudokuState) (b : Bool),
      SudokuState.scanAux ps s = some (t, b) →
      ∀ a c, (s.entry a c).is_fixed = true → t.entry a c = s.entry a c
  | [], s, t, b, h => by
    rw [SudokuState.scanAux] at h
    simp only [Option.some.injEq, Prod.mk.injEq] at h
    obtain ⟨rfl, rfl⟩ := h
    exact fun a c _ => rfl
  | (ri, ci) :: rest, s, t, b, h => by
    by_cases hg : (s.entry ri ci).is_fixed = false ∧ (s.entry ri ci).width = 1
    · rw [s.scanAux_cons_fix ri ci rest hg.1 hg.2] at h
      intro a c hfix
      have hne : ¬(ri = a ∧ ci = c) := by
        rintro ⟨rfl, rfl⟩
        rw [hg.1] at hfix
        cases hfix
      have hstep : (s.addNum ri ci ((s.entry ri ci).values.headD 0)).entry a c =
          s.entry a c := SudokuState.add_number_entry_of_fixed s ri ci _ a c hne hfix
      split at h
      · simp only [Option.some.injEq, Prod.mk.injEq] at h
        obtain ⟨rfl, rfl⟩ := h
        exact hstep
      · have ih := SudokuState.scanAux_fixed_entry rest _ t b h a c (by rw [hstep]; exact hfix)
        rw [ih, hstep]
    · rw [s.scanAux_cons_skip ri ci rest hg] at h
      exact SudokuState.scanAux_fixed_entry rest s t b h

lemma SudokuState.scanAux_domain_sublist :
    ∀ (ps : List (Nat × Nat)) (s t : SudokuState) (b : Bool),
      SudokuState.scanAux ps s = some (t, b) →
      ∀ a c, List.Sublist ((t.entry a c).domain) ((s.entry a c).domain)
  | [], s, t, b, h => by
    rw [SudokuState.scanAux] at h
    simp only [Option.some.injEq, Prod.mk.injEq] at h
    obtain ⟨rfl, rfl⟩ := h
    exact fun a c => List.Sublist.refl _
  | (ri, ci) :: rest, s, t, b, h => by
    by_cases hg : (s.entry ri ci).is_fixed = false ∧ (s.entry ri ci).width = 1
    · rw [s.scanAux_cons_fix ri ci rest hg.1 hg.2] at h
      intro a c
      have hstep : List.Sublist
          (((s.addNum ri ci ((s.entry ri ci).values.headD 0)).entry a c).domain)
          ((s.entry a c).domain) :=
        SudokuState.add_number_domain_sublist s ri ci _ a c
          (SudokuEntry.headD_mem_of_width_one _ hg.2)
      split at h
      · simp only [Option.some.injEq, Prod.mk.injEq] at h
        obtain ⟨rfl, rfl⟩ := h
        exact hstep
      · exact (SudokuState.scanAux_domain_sublist rest _ t b h a c).trans hstep
    · rw [s.scanAux_cons_skip ri ci rest hg] at h
      exact SudokuState.scanAux_domain_sublist rest s t b h

lemma SudokuState.scanAux_sticky (ps : List (Nat × Nat)) (s t : SudokuState) (b : Bool)
    (h : SudokuState.scanAux ps s = some (t, b))
    (himp : s.solution_is_possible = false) : t.solution_is_possible = false := by
  rw [s.impossible_iff] at himp
  obtain ⟨r, hr, c, hc, hnil⟩ := himp
  rw [t.impossible_iff]
  refine ⟨r, hr, c, hc, ?_⟩
  have := SudokuState.scanAux_domain_sublist ps s t b h r c
  rw [hnil] at this
  exact List.sublist_nil.mp this

lemma SudokuState.scanAux_impossible :
    ∀ (ps : List (Nat × Nat)) (s : SudokuState), s.solution_is_possible = false →
      ∃ t, SudokuState.scanAux ps s = some (t, false)
  | [], s, _ => ⟨s, rfl⟩
  | (ri, ci) :: rest, s, himp => by
    by_cases hg : (s.entry ri ci).is_fixed = false ∧ (s.entry ri ci).width = 1
    · rw [s.scanAux_cons_fix ri ci rest hg.1 hg.2]
      have hstick : (s.addNum ri ci ((s.entry ri ci).values.headD 0)).solution_is_possible
          = false :=
        SudokuState.add_number_impossible_sticky s ri ci _
          (SudokuEntry.headD_mem_of_width_one _ hg.2) himp
      rw [if_neg (by rw [hstick]; simp)]
      exact SudokuState.scanAux_impossible rest _ hstick
    · rw [s.scanAux_cons_skip ri ci rest hg]
      exact SudokuState.scanAux_impossible rest s himp

lemma SudokuState.scanAux_fixpoint :
    ∀ (ps : List (Nat × Nat)) (s t : SudokuState),
      SudokuState.scanAux ps s = some (t, false) → t.solution_is_possible = true → t = s
  | [], s, t, h, _ => by
    rw [SudokuState.scanAux] at h
    simp only [Option.some.injEq, Prod.mk.injEq] at h
    exact h.1.symm
  | (ri, ci) :: rest, s, t, h, hposs => by
    by_cases hg : (s.entry ri ci).is_fixed = false ∧ (s.entry ri ci).width = 1
    · rw [s.scanAux_cons_fix ri ci rest hg.1 hg.2] at h
      split at h
      · simp only [Option.some.injEq, Prod.mk.injEq] at h
        exact absurd h.2.symm (by simp)
      · rename_i hp
        have himp : (s.addNum ri ci ((s.entry ri ci).values.headD 0)).solution_is_possible
            = false := by
          revert hp
          cases (s.addNum ri ci ((s.entry ri ci).values.headD 0)).solution_is_possible <;> simp
        have := SudokuState.scanAux_sticky rest _ t false h himp
        rw [this] at hposs
        cases hposs
    · rw [s.scanAux_cons_skip ri ci rest hg] at h
      exact SudokuState.scanAux_fixpoint rest s t h hposs

lemma SudokuState.scanAux_unfixedCount :
    ∀ (ps : List (Nat × Nat)) (s t : SudokuState) (b : Bool),
      (∀ p ∈ ps, p ∈ allCells) →
      SudokuState.scanAux ps s = some (t, b) →
      t.unfixedCount ≤ s.unfixedCount ∧ (b = true → t.unfixedCount < s.unfixedCount)
  | [], s, t, b, _, h => by
    rw [SudokuState.scanAux] at h
    simp only [Option.some.injEq, Prod.mk.injEq] at h
    obtain ⟨rfl, rfl⟩ := h
    exact ⟨Nat.le_refl _, fun hb => absurd hb (by simp)⟩
  | (ri, ci) :: rest, s, t, b, hps, h => by
    by_cases hg : (s.entry ri ci).is_fixed = false ∧ (s.entry ri ci).width = 1
    · rw [s.scanAux_cons_fix ri ci rest hg.1 hg.2] at h
      have hin := mem_allCells.mp (hps (ri, ci) (by simp))
      obtain ⟨ha, hb⟩ := s.readable_of_width_one ri ci hg.2
      have hcount : s.unfixedCount =
          (s.addNum ri ci ((s.entry ri ci).values.headD 0)).unfixedCount + 1 :=
        SudokuState.add_number_unfixedCount s ri ci _ hin.1 hin.2 ha hb hg.1
      split at h
      · simp only [Option.some.injEq, Prod.mk.injEq] at h
        obtain ⟨rfl, rfl⟩ := h
        exact ⟨by omega, fun _ => by omega⟩
      · have ih := SudokuState.scanAux_unfixedCount rest _ t b
          (fun p hp => hps p (by simp [hp])) h
        exact ⟨by omega, fun _ => by omega⟩
    · rw [s.scanAux_cons_skip ri ci rest hg] at h
      exact SudokuState.scanAux_unfixedCount rest s t b (fun p hp => hps p (by simp [hp])) h

lemma SudokuState.scanAux_repCounts :
    ∀ (ps : List (Nat × Nat)) (s t : SudokuState) (b : Bool),
      (∀ p ∈ ps, p ∈ allCells) →
      s.Rep → s.Counts →
      SudokuState.scanAux ps s = some (t, b) →
      t.Rep ∧ t.Counts
  | [], s, t, b, _, hrep, hcnt, h => by
    rw [SudokuState.scanAux] at h
    simp only [Option.some.injEq, Prod.mk.injEq] at h
    obtain ⟨rfl, rfl⟩ := h
    exact ⟨hrep, hcnt⟩
  | (ri, ci) :: rest, s, t, b, hps, hrep, hcnt, h => by
    by_cases hg : (s.entry ri ci).is_fixed = false ∧ (s.entry ri ci).width = 1
    · rw [s.scanAux_cons_fix ri ci rest hg.1 hg.2] at h
      have hin := mem_allCells.mp (hps (ri, ci) (by simp))
      have hmem := SudokuEntry.headD_mem_of_width_one (s.entry ri ci) hg.2
      have hrep' : (s.addNum ri ci ((s.entry ri ci).values.headD 0)).Rep :=
        SudokuState.add_number_rep s ri ci _ hrep hin.1 hin.2 hmem
      have hcnt' : (s.addNum ri ci ((s.entry ri ci).values.headD 0)).Counts :=
        SudokuState.add_number_counts s ri ci _ hrep.1 hin.1 hin.2 hg.1 hcnt
      split at h
      · simp only [Option.some.injEq, Prod.mk.injEq] at h
        obtain ⟨rfl, rfl⟩ := h
        exact ⟨hrep', hcnt'⟩
      · exact SudokuState.scanAux_repCounts rest _ t b
          (fun p hp => hps p (by simp [hp])) hrep' hcnt' h
    · rw [s.scanAux_cons_skip ri ci rest hg] at h
      exact SudokuState.scanAux_repCounts rest s t b
        (fun p hp => hps p (by simp [hp])) hrep hcnt h

/-! ### `propagate` -/

lemma SudokuState.unfixedCount_le (s : SudokuState) : s.unfixedCount ≤ 81 := by
  have := List.countP_le_length (fun p : Nat × Nat => !(s.entry p.1 p.2).is_fixed)
    (l := allCells)
  rw [allCells_length] at this
  exact this

lemma SudokuState.fixedCount_le (s : SudokuState) : s.fixedCount ≤ 81 := by
  have := List.countP_le_length (fun p : Nat × Nat => (s.entry p.1 p.2).is_fixed)
    (l := allCells)
  rw [allCells_length] at this
  exact this

lemma SudokuState.propagateAux_total :
    ∀ (fuel : Nat) (s : SudokuState), s.unfixedCount < fuel →
      ∃ t, SudokuState.propagateAux fuel s = some t
  | 0, s, h => absurd h (by omega)
  | fuel + 1, s, h => by
    obtain ⟨⟨t, b⟩, hscan⟩ := SudokuState.scanAux_total allCells s
    rw [SudokuState.propagateAux, hscan]
    cases b
    · exact ⟨t, rfl⟩
    · have hlt := (SudokuState.scanAux_unfixedCount allCells s t true
        (fun p hp => hp) hscan).2 rfl
      exact SudokuState.propagateAux_total fuel t (by omega)

lemma SudokuState.propagate_total (s : SudokuState) : ∃ t, s.propagate = some t :=
  SudokuState.propagateAux_total 82 s (by have := s.unfixedCount_le; omega)

lemma SudokuState.propagate_lastScan :
    ∀ (fuel : Nat) (s t : SudokuState), SudokuState.propagateAux fuel s = some t →
      ∃ s0, SudokuState.scanAux allCells s0 = some (t, false)
  | 0, s, t, h => by cases h
  | fuel + 1, s, t, h => by
    rw [SudokuState.propagateAux] at h
    obtain ⟨⟨t', b⟩, hscan⟩ := SudokuState.scanAux_total allCells s
    rw [hscan] at h
    cases b
    · simp only [Option.some.injEq] at h
      exact ⟨s, by rw [hscan, h]⟩
    · exact SudokuState.propagate_lastScan fuel t' t h

lemma SudokuState.propagate_idem_of_possible (s t : SudokuState)
    (h : s.propagate = some t) (hposs : t.solution_is_possible = true) :
    t.propagate = some t := by
  obtain ⟨s0, hscan⟩ := SudokuState.propagate_lastScan 82 s t h
  have ht : t = s0 := SudokuState.scanAux_fixpoint allCells s0 t hscan hposs
  subst ht
  show SudokuState.propagateAux (81 + 1) t = some t
  rw [SudokuState.propagateAux, hscan]

lemma SudokuState.propagate_of_impossible (s : SudokuState)
    (h : s.solution_is_possible = false) :
    ∃ t, SudokuState.scanAux allCells s = some (t, false) ∧ s.propagate = some t := by
  obtain ⟨t, hscan⟩ := SudokuState.scanAux_impossible allCells s h
  refine ⟨t, hscan, ?_⟩
  show SudokuState.propagateAux (81 + 1) s = some t
  rw [SudokuState.propagateAux, hscan]

lemma SudokuState.propagateAux_repCounts :
    ∀ (fuel : Nat) (s t : SudokuState), s.Rep → s.Counts →
      SudokuState.propagateAux fuel s = some t → t.Rep ∧ t.Counts
  | 0, s, t, _, _, h => by cases h
  | fuel + 1, s, t, hrep, hcnt, h => by
    rw [SudokuState.propagateAux] at h
    obtain ⟨⟨t', b⟩, hscan⟩ := SudokuState.scanAux_total allCells s
    rw [hscan] at h
    have hrc := SudokuState.scanAux_repCounts allCells s t' b (fun p hp => hp) hrep hcnt hscan
    cases b
    · simp only [Option.some.injEq] at h
      exact h ▸ hrc
    · exact SudokuState.propagateAux_repCounts fuel t' t hrc.1 hrc.2 h

lemma SudokuState.propagateAux_unfixedCount_le :
    ∀ (fuel : Nat) (s t : SudokuState), SudokuState.propagateAux fuel s = some t →
      t.unfixedCount ≤ s.unfixedCount
  | 0, s, t, h => by cases h
  | fuel + 1, s, t, h => by
    rw [SudokuState.propagateAux] at h
    obtain ⟨⟨t', b⟩, hscan⟩ := SudokuState.scanAux_total allCells s
    rw [hscan] at h
    have hle := (SudokuState.scanAux_unfixedCount allCells s t' b (fun p hp => hp) hscan).1
    cases b
    · simp only [Option.some.injEq] at h
      subst h
      exact hle
    · have := SudokuState.propagateAux_unfixedCount_le fuel t' t h
      omega

/-! ### The most-constrained-cell scan -/

lemma mccGen_cons_update (look : Nat → Nat → SudokuEntry) (r c : Nat)
    (ps : List (Nat × Nat)) (d : Nat) (loc : Option (Nat × Nat))
    (hg : (look r c).is_fixed = false ∧ (look r c).width ≤ d) :
    mccGen look ((r, c) :: ps) d loc = mccGen look ps (look r c).width (some (r, c)) := by
  rw [mccGen, if_pos hg]

lemma mccGen_cons_skip (look : Nat → Nat → SudokuEntry) (r c : Nat)
    (ps : List (Nat × Nat)) (d : Nat) (loc : Option (Nat × Nat))
    (hg : ¬((look r c).is_fixed = false ∧ (look r c).width ≤ d)) :
    mccGen look ((r, c) :: ps) d loc = mccGen look ps d loc := by
  rw [mccGen, if_neg hg]

lemma mccGen_spec (look : Nat → Nat → SudokuEntry) :
    ∀ (ps : List (Nat × Nat)) (d : Nat) (loc : Option (Nat × Nat)),
      ((mccGen look ps d loc) = (d, loc) ∧
        ∀ p ∈ ps, (look p.1 p.2).is_fixed = true ∨ d < (look p.1 p.2).width) ∨
      (∃ q l1 l2, ps = l1 ++ q :: l2 ∧
        (mccGen look ps d loc).2 = some q ∧
        (look q.1 q.2).is_fixed = false ∧
        (mccGen look ps d loc).1 = (look q.1 q.2).width ∧
        (mccGen look ps d loc).1 ≤ d ∧
        (∀ p ∈ ps, (look p.1 p.2).is_fixed = false →
          (mccGen look ps d loc).1 ≤ (look p.1 p.2).width) ∧
        (∀ p ∈ l2, (look p.1 p.2).is_fixed = true ∨
          (mccGen look ps d loc).1 < (look p.1 p.2).width))
  | [], d, loc => Or.inl ⟨rfl, by simp⟩
  | (r, c) :: ps, d, loc => by
    by_cases hg : (look r c).is_fixed = false ∧ (look r c).width ≤ d
    · rw [mccGen_cons_update look r c ps d loc hg]
      rcases mccGen_spec look ps (look r c).width (some (r, c)) with
        ⟨heq, hall⟩ | ⟨q, l1, l2, hsplit, h2, h3, h4, h5, h6, h7⟩
      · refine Or.inr ⟨(r, c), [], ps, by simp, ?_, hg.1, ?_, ?_, ?_, ?_⟩
        · rw [heq]
        · rw [heq]
        · rw [heq]; exact hg.2
        · intro p hp hunf
          rcases List.mem_cons.mp hp with rfl | hp'
          · rw [heq]
          · rcases hall p hp' with hfix | hlt
            · rw [hunf] at hfix; cases hfix
            · rw [heq]; exact Nat.le_of_lt hlt
        · intro p hp
          rcases hall p hp with hfix | hlt
          · exact Or.inl hfix
          · exact Or.inr (by rw [heq]; exact hlt)
      · refine Or.inr ⟨q, (r, c) :: l1, l2, by rw [hsplit]; rfl, h2, h3, h4,
          Nat.le_trans h5 hg.2, ?_, h7⟩
        intro p hp hunf
        rcases List.mem_cons.mp hp with rfl | hp'
        · exact h5
        · exact h6 p hp' hunf
    · rw [mccGen_cons_skip look r c ps d loc hg]
      have hhead : (look r c).is_fixed = true ∨ d < (look r c).width := by
        rcases Bool.eq_false_or_eq_true ((look r c).is_fixed) with hf | hf
        · exact Or.inl hf
        · right
          by_contra hw
          exact hg ⟨hf, by omega⟩
      rcases mccGen_spec look ps d loc with
        ⟨heq, hall⟩ | ⟨q, l1, l2, hsplit, h2, h3, h4, h5, h6, h7⟩
      · refine Or.inl ⟨heq, ?_⟩
        intro p hp
        rcases List.mem_cons.mp hp with rfl | hp'
        · exact hhead
        · exact hall p hp'
      · refine Or.inr ⟨q, (r, c) :: l1, l2, by rw [hsplit]; rfl, h2, h3, h4, h5, ?_, h7⟩
        intro p hp hunf
        rcases List.mem_cons.mp hp with rfl | hp'
        · rcases hhead with hfix | hlt
          · rw [hunf] at hfix; cases hfix
          · exact Nat.le_of_lt (Nat.lt_of_le_of_lt h5 hlt)
        · exact h6 p hp' hunf

lemma SudokuEntry.width_le_of_OK (e : SudokuEntry) (h : e.OK) : e.width ≤ 9 := by
  have hsub : e.domain ⊆ List.range' 1 9 := by
    intro n hn
    have hb := h.2.2 n hn
    rw [List.mem_range']
    exact ⟨n - 1, by omega, by omega⟩
  have := (List.subperm_of_subset h.1 hsub).length_le
  simpa using this

lemma SudokuState.mcc_eq_none_iff (s : SudokuState) (hrep : s.Rep) :
    s.get_most_constrained_cell = none ↔
      ∀ r, r < 9 → ∀ c, c < 9 → (s.entry r c).is_fixed = true := by
  unfold SudokuState.get_most_constrained_cell
  constructor
  · intro hnone r hr c hc
    rcases mccGen_spec s.entry allCells s.size none with ⟨heq, hall⟩ | ⟨q, _, _, _, h2, _⟩
    · have hm := hall (r, c) (mem_allCells.mpr ⟨hr, hc⟩)
      rcases hm with hfix | hlt
      · exact hfix
      · simp only [] at hlt
        have hw := SudokuEntry.width_le_of_OK _ (hrep.2 r hr c hc)
        have hsz : s.size = 9 := rfl
        omega
    · rw [h2] at hnone
      cases hnone
  · intro hall
    rcases mccGen_spec s.entry allCells s.size none with ⟨heq, _⟩ |
      ⟨q, l1, l2, hsplit, _, h3, _⟩
    · rw [heq]
    · have hq : q ∈ allCells := by rw [hsplit]; simp
      have := hall q.1 (mem_allCells.mp hq).1 q.2 (mem_allCells.mp hq).2
      rw [this] at h3
      cases h3

lemma SudokuState.mcc_some_spec (s : SudokuState) (r c : Nat)
    (hq : s.get_most_constrained_cell = some (r, c)) :
    r < 9 ∧ c < 9 ∧ (s.entry r c).is_fixed = false ∧
      (∀ r' c', r' < 9 → c' < 9 → (s.entry r' c').is_fixed = false →
        (s.entry r c).width ≤ (s.entry r' c').width) ∧
      (∀ r' c', r' < 9 → c' < 9 → (s.entry r' c').is_fixed = false →
        (s.entry r' c').width = (s.entry r c).width → 9 * r' + c' ≤ 9 * r + c) := by
  unfold SudokuState.get_most_constrained_cell at hq
  rcases mccGen_spec s.entry allCells s.size none with ⟨heq, _⟩ |
    ⟨q, l1, l2, hsplit, h2, h3, h4, _, h6, h7⟩
  · rw [heq] at hq
    cases hq
  · rw [h2] at hq
    have hqe : q = (r, c) := by
      simpa using hq
    subst hqe
    have hqmem : (r, c) ∈ allCells := by rw [hsplit]; simp
    obtain ⟨hr9, hc9⟩ := mem_allCells.mp hqmem
    rw [show (((r, c) : Nat × Nat).1 : Nat) = r from rfl,
      show (((r, c) : Nat × Nat).2 : Nat) = c from rfl] at h3 h4
    refine ⟨hr9, hc9, h3, ?_, ?_⟩
    · intro r' c' hr' hc' hunf
      have hle := h6 (r', c') (mem_allCells.mpr ⟨hr', hc'⟩) hunf
      rw [show (((r', c') : Nat × Nat).1 : Nat) = r' from rfl,
        show (((r', c') : Nat × Nat).2 : Nat) = c' from rfl] at hle
      omega
    · intro r' c' hr' hc' hunf hweq
      have hmem' : (r', c') ∈ l1 ++ (r, c) :: l2 := by
        rw [← hsplit]
        exact mem_allCells.mpr ⟨hr', hc'⟩
    
      rcases List.mem_append.mp hmem' with hin1 | hin2
      · have hpw := allCells_rowMajor
        rw [hsplit] at hpw
        have := (List.pairwise_append.mp hpw).2.2 (r', c') hin1 (r, c) (by simp)
        simp only at this
        omega
      · rcases List.mem_cons.mp hin2 with heq2 | hin3
        · have h1 : r' = r := congrArg Prod.fst heq2
          have h2' : c' = c := congrArg Prod.snd heq2
          omega
        · rcases h7 (r', c') hin3 with hfix | hlt
          · rw [show (((r', c') : Nat × Nat).1 : Nat) = r' from rfl,
              show (((r', c') : Nat × Nat).2 : Nat) = c' from rfl] at hfix
            rw [hunf] at hfix
            cases hfix
          · rw [show (((r', c') : Nat × Nat).1 : Nat) = r' from rfl,
              show (((r', c') : Nat × Nat).2 : Nat) = c' from rfl] at hlt
            omega

lemma SudokuState.mcc_some_of_unfixed (s : SudokuState) (hrep : s.Rep)
    (hex : ∃ r, r < 9 ∧ ∃ c, c < 9 ∧ (s.entry r c).is_fixed = false) :
    ∃ q, s.get_most_constrained_cell = some q := by
  cases hmcc : s.get_most_constrained_cell with
  | some q => exact ⟨q, rfl⟩
  | none =>
    obtain ⟨r, hr, c, hc, hunf⟩ := hex
    have := (s.mcc_eq_none_iff hrep).mp hmcc r hr c hc
    rw [hunf] at this
    cases this

/-! ### `next_states` -/

lemma SudokuState.branches_cons_eq (s : SudokuState) (row col v : Nat)
    (rest : List Nat) (t : SudokuState)
    (hv : v ∈ (s.entry row col).domain)
    (hprop : ((s.deepcopy).addNum row col v).propagate = some t) :
    s.branches row col (v :: rest) =
      match s.branches row col rest with
      | none => none
      | some tail => some (if t.solution_is_possible then t :: tail else tail) := by
  rw [SudokuState.branches, SudokuState.add_number_addNum s.deepcopy row col v hv]
  dsimp only
  rw [hprop]

lemma SudokuState.branches_spec :
    ∀ (vals : List Nat) (s : SudokuState) (row col : Nat),
      (∀ v ∈ vals, v ∈ (s.entry row col).domain) →
      s.branches row col vals = some (vals.filterMap (fun v =>
        (((s.deepcopy).add_number row col v).bind SudokuState.propagate).bind
          (fun nb => if nb.solution_is_possible then some nb else none)))
  | [], _, _, _, _ => rfl
  | v :: vals, s, row, col, h => by
    have hv := h v (by simp)
    obtain ⟨t, hprop⟩ := SudokuState.propagate_total ((s.deepcopy).addNum row col v)
    rw [s.branches_cons_eq row col v vals t hv hprop,
      SudokuState.branches_spec vals s row col (fun x hx => h x (by simp [hx]))]
    have hf : (((s.deepcopy).add_number row col v).bind SudokuState.propagate).bind
        (fun nb => if nb.solution_is_possible then some nb else none) =
        if t.solution_is_possible then some t else none := by
      rw [SudokuState.add_number_addNum s.deepcopy row col v hv]
      simp only [Option.some_bind]
      rw [hprop]
      simp only [Option.some_bind]
    rw [List.filterMap_cons, hf]
    by_cases hp : t.solution_is_possible = true
    · simp [hp]
    · simp [hp]

lemma SudokuState.next_states_char (s : SudokuState) (r c : Nat)
    (hq : s.get_most_constrained_cell = some (r, c)) :
    s.next_states = some (successorsSpec s r c) := by
  unfold SudokuState.next_states
  rw [hq]
  exact SudokuState.branches_spec _ s r c (fun v hv => hv)

lemma successorsSpec_mem (s : SudokuState) (r c : Nat) (t : SudokuState) :
    t ∈ successorsSpec s r c ↔
      ∃ v ∈ (s.entry r c).values,
        ((s.deepcopy).add_number r c v).bind SudokuState.propagate = some t ∧
          t.solution_is_possible = true := by
  unfold successorsSpec
  rw [List.mem_filterMap]
  constructor
  · rintro ⟨v, hv, hf⟩
    cases hb : ((s.deepcopy).add_number r c v).bind SudokuState.propagate with
    | none => rw [hb] at hf; cases hf
    | some u =>
      rw [hb] at hf
      simp only [Option.some_bind] at hf
      by_cases hp : u.solution_is_possible = true
      · rw [if_pos hp] at hf
        simp only [Option.some.injEq] at hf
        subst hf
        exact ⟨v, hv, hb, hp⟩
      · rw [if_neg hp] at hf
        cases hf
  · rintro ⟨v, hv, hb, hp⟩
    refine ⟨v, hv, ?_⟩
    rw [hb]
    simp only [Option.some_bind]
    rw [if_pos hp]

lemma SudokuState.next_states_successor (s : SudokuState)
    (hrep : s.Rep) (hcnt : s.Counts) (l : List SudokuState)
    (hns : s.next_states = some l) (t : SudokuState) (ht : t ∈ l) :
    t.Rep ∧ t.Counts ∧ t.unfixedCount < s.unfixedCount ∧
      t.solution_is_possible = true := by
  cases hmcc : s.get_most_constrained_cell with
  | none =>
    unfold SudokuState.next_states at hns
    rw [hmcc] at hns
    cases hns
  | some q =>
    obtain ⟨r, c⟩ := q
    rw [s.next_states_char r c hmcc] at hns
    simp only [Option.some.injEq] at hns
    subst hns
    obtain ⟨v, hv, hb, hp⟩ := (successorsSpec_mem s r c t).mp ht
    obtain ⟨hr9, hc9, hunf, -, -⟩ := s.mcc_some_spec r c hmcc
    rw [SudokuState.add_number_addNum s.deepcopy r c v hv] at hb
    simp only [Option.some_bind] at hb
    have hb' : SudokuState.propagateAux 82 (s.addNum r c v) = some t := hb
    have ha : r < s.board.length := by rw [hrep.1.1]; exact hr9
    have hbb : c < (s.board.getD r []).length := by
      rw [s.shape_row_length hrep.1 r hr9]; exact hc9
    have hrepAdd : (s.addNum r c v).Rep :=
      SudokuState.add_number_rep s r c v hrep hr9 hc9 hv
    have hcntAdd : (s.addNum r c v).Counts :=
      SudokuState.add_number_counts s r c v hrep.1 hr9 hc9 hunf hcnt
    have hrc := SudokuState.propagateAux_repCounts 82 _ t hrepAdd hcntAdd hb'
    have hcount : s.unfixedCount = (s.addNum r c v).unfixedCount + 1 :=
      SudokuState.add_number_unfixedCount s r c v hr9 hc9 ha hbb hunf
    have hle := SudokuState.propagateAux_unfixedCount_le 82 _ t hb'
    exact ⟨hrc.1, hrc.2, by omega, hp⟩

/-! ### The `dfs` driver -/

lemma foldBind_none (g : SudokuState → Option (List SudokuState)) :
    ∀ l : List SudokuState,
      l.foldl (fun acc s' => acc.bind (fun r => (g s').map (fun r' => r ++ r'))) none = none
  | [] => rfl
  | _ :: l => foldBind_none g l

lemma foldBind_some (g : SudokuState → Option (List SudokuState)) :
    ∀ (l : List SudokuState) (acc r : List SudokuState),
      l.foldl (fun acc s' => acc.bind (fun r => (g s').map (fun r' => r ++ r'))) (some acc) =
        some r →
      ∀ t ∈ r, t ∈ acc ∨ ∃ x ∈ l, ∃ rx, g x = some rx ∧ t ∈ rx
  | [], acc, r, h => by
    simp only [List.foldl_nil, Option.some.injEq] at h
    subst h
    exact fun t ht => Or.inl ht
  | x :: l, acc, r, h => by
    rw [List.foldl_cons] at h
    cases hgx : g x with
    | none =>
      have hF : (some acc).bind
          (fun r => (g x).map (fun r' : List SudokuState => r ++ r')) = none := by
        simp [hgx]
      rw [hF, foldBind_none g l] at h
      cases h
    | some rx =>
      have hF : (some acc).bind
          (fun r => (g x).map (fun r' : List SudokuState => r ++ r')) = some (acc ++ rx) := by
        simp [hgx]
      rw [hF] at h
      intro t ht
      rcases foldBind_some g l (acc ++ rx) r h t ht with hmem | ⟨y, hy, ry, hgy, hty⟩
      · rcases List.mem_append.mp hmem with h1 | h2
        · exact Or.inl h1
        · exact Or.inr ⟨x, by simp, rx, hgx, h2⟩
      · exact Or.inr ⟨y, by simp [hy], ry, hgy, hty⟩

lemma foldBind_total (g : SudokuState → Option (List SudokuState)) :
    ∀ (l : List SudokuState), (∀ x ∈ l, ∃ v, g x = some v) →
      ∀ acc, ∃ r,
        l.foldl (fun acc s' => acc.bind (fun r => (g s').map (fun r' => r ++ r'))) (some acc) =
          some r
  | [], _, acc => ⟨acc, rfl⟩
  | x :: l, h, acc => by
    obtain ⟨rx, hgx⟩ := h x (by simp)
    have hF : (some acc).bind
        (fun r => (g x).map (fun r' : List SudokuState => r ++ r')) = some (acc ++ rx) := by
      simp [hgx]
    rw [List.foldl_cons, hF]
    exact foldBind_total g l (fun y hy => h y (by simp [hy])) (acc ++ rx)

lemma foldBind_map (g : SudokuState → Option (List SudokuState))
    (k : SudokuState → List SudokuState) :
    ∀ (l : List SudokuState), (∀ x ∈ l, g x = some (k x)) →
      ∀ acc,
        l.foldl (fun acc s' => acc.bind (fun r => (g s').map (fun r' => r ++ r'))) (some acc) =
          some (acc ++ (l.map k).flatten)
  | [], _, acc => by simp
  | x :: l, h, acc => by
    have hF : (some acc).bind
        (fun r => (g x).map (fun r' : List SudokuState => r ++ r')) = some (acc ++ k x) := by
      simp [h x (by simp)]
    rw [List.foldl_cons, hF, foldBind_map g k l (fun y hy => h y (by simp [hy])) (acc ++ k x)]
    simp

lemma foldBind_congr (g g' : SudokuState → Option (List SudokuState)) :
    ∀ (l : List SudokuState), (∀ x ∈ l, ∀ v, g x = some v → g' x = some v) →
      ∀ (acc r : List SudokuState),
        l.foldl (fun acc s' => acc.bind (fun r => (g s').map (fun r' => r ++ r'))) (some acc) =
          some r →
        l.foldl (fun acc s' => acc.bind (fun r => (g' s').map (fun r' => r ++ r'))) (some acc) =
          some r
  | [], _, acc, r, h => h
  | x :: l, hgg, acc, r, h => by
    rw [List.foldl_cons] at h ⊢
    cases hgx : g x with
    | none =>
      have hF : (some acc).bind
          (fun r => (g x).map (fun r' : List SudokuState => r ++ r')) = none := by
        simp [hgx]
      rw [hF, foldBind_none g l] at h
      cases h
    | some rx =>
      have hF : (some acc).bind
          (fun r => (g x).map (fun r' : List SudokuState => r ++ r')) = some (acc ++ rx) := by
        simp [hgx]
      have hF' : (some acc).bind
          (fun r => (g' x).map (fun r' : List SudokuState => r ++ r')) = some (acc ++ rx) := by
        simp [hgg x (by simp) rx hgx]
      rw [hF] at h
      rw [hF']
      exact foldBind_congr g g' l (fun y hy => hgg y (by simp [hy])) (acc ++ rx) r h

lemma dfsAux_succ_goal (fuel : Nat) (s : SudokuState) (hg : s.is_goal = true) :
    dfsAux (fuel + 1) s = some [s] := by
  rw [dfsAux, if_pos hg]

lemma dfsAux_succ_none (fuel : Nat) (s : SudokuState) (hg : ¬s.is_goal = true)
    (hns : s.next_states = none) : dfsAux (fuel + 1) s = none := by
  rw [dfsAux, if_neg hg, hns]

lemma dfsAux_succ_some (fuel : Nat) (s : SudokuState) (succs : List SudokuState)
    (hg : ¬s.is_goal = true) (hns : s.next_states = some succs) :
    dfsAux (fuel + 1) s =
      succs.foldl (fun acc s' =>
        acc.bind (fun r => (dfsAux fuel s').map (fun r' => r ++ r'))) (some []) := by
  rw [dfsAux, if_neg hg, hns]

lemma dfsAux_mono : ∀ (fuel : Nat) (s : SudokuState) (r : List SudokuState),
    dfsAux fuel s = some r → dfsAux (fuel + 1) s = some r
  | 0, _, _, h => by cases h
  | fuel + 1, s, r, h => by
    by_cases hg : s.is_goal = true
    · rw [dfsAux_succ_goal fuel s hg] at h
      rw [dfsAux_succ_goal (fuel + 1) s hg]
      exact h
    · cases hns : s.next_states with
      | none =>
        rw [dfsAux_succ_none fuel s hg hns] at h
        cases h
      | some succs =>
        rw [dfsAux_succ_some fuel s succs hg hns] at h
        rw [dfsAux_succ_some (fuel + 1) s succs hg hns]
        exact foldBind_congr (dfsAux fuel) (dfsAux (fuel + 1)) succs
          (fun x _ v hv => dfsAux_mono fuel x v hv) [] r h

lemma dfsAux_total : ∀ (fuel : Nat) (s : SudokuState), s.Rep → s.Counts →
    s.unfixedCount < fuel → ∃ r, dfsAux fuel s = some r
  | 0, s, _, _, hf => absurd hf (by omega)
  | fuel + 1, s, hrep, hcnt, hf => by
    by_cases hg : s.is_goal = true
    · exact ⟨[s], dfsAux_succ_goal fuel s hg⟩
    · have hne : s.num_placed ≠ 81 := by
        intro h81
        apply hg
        simp [SudokuState.is_goal, SudokuState.size, h81]
      have hlt : s.fixedCount < 81 := by
        have hle := s.fixedCount_le
        rcases Nat.lt_or_ge s.fixedCount 81 with h | h
        · exact h
        · exact absurd (by omega : s.fixedCount = 81) (by rw [← hcnt.1]; exact hne)
      obtain ⟨p, hpmem, hpfix⟩ := list_countP_lt_exists _ allCells
        (by rw [allCells_length]; exact hlt)
      obtain ⟨q, hmcc⟩ := s.mcc_some_of_unfixed hrep
        ⟨p.1, (mem_allCells.mp hpmem).1, p.2, (mem_allCells.mp hpmem).2, hpfix⟩
      obtain ⟨r, c⟩ := q
      rw [dfsAux_succ_some fuel s (successorsSpec s r c) hg (s.next_states_char r c hmcc)]
      refine foldBind_total (dfsAux fuel) _ ?_ []
      intro x hx
      have hsucc := s.next_states_successor hrep hcnt _ (s.next_states_char r c hmcc) x hx
      exact dfsAux_total fuel x hsucc.1 hsucc.2.1 (by
        have := hsucc.2.2.1
        omega)

lemma dfsAux_sound : ∀ (fuel : Nat) (s : SudokuState) (r : List SudokuState),
    dfsAux fuel s = some r → ∀ t ∈ r, t.is_goal = true ∧ ReachState s t
  | 0, _, _, h => by cases h
  | fuel + 1, s, r, h => by
    by_cases hg : s.is_goal = true
    · rw [dfsAux_succ_goal fuel s hg] at h
      simp only [Option.some.injEq] at h
      subst h
      intro t ht
      simp only [List.mem_singleton] at ht
      subst ht
      exact ⟨hg, Relation.ReflTransGen.refl⟩
    · cases hns : s.next_states with
      | none =>
        rw [dfsAux_succ_none fuel s hg hns] at h
        cases h
      | some succs =>
        rw [dfsAux_succ_some fuel s succs hg hns] at h
        intro t ht
        rcases foldBind_some (dfsAux fuel) succs [] r h t ht with hmem | ⟨x, hx, rx, hgx, htx⟩
        · cases hmem
        · have ih := dfsAux_sound fuel x rx hgx t htx
          exact ⟨ih.1, Relation.ReflTransGen.head ⟨succs, hns, hx⟩ ih.2⟩

lemma reach_repCounts (s t : SudokuState) (h : ReachState s t)
    (hrep : s.Rep) (hcnt : s.Counts) : t.Rep ∧ t.Counts := by
  induction h with
  | refl => exact ⟨hrep, hcnt⟩
  | tail hab hbc ih =>
    obtain ⟨l, hns, hmem⟩ := hbc
    have hstep := SudokuState.next_states_successor _ ih.1 ih.2 l hns _ hmem
    exact ⟨hstep.1, hstep.2.1⟩

lemma SudokuState.goal_num (t : SudokuState) (hg : t.is_goal = true) :
    t.num_placed = 81 := by
  have h := hg
  unfold SudokuState.is_goal SudokuState.size at h
  simp only [beq_iff_eq] at h
  omega

lemma SudokuState.goal_possible (t : SudokuState) (hrep : t.Rep) (hcnt : t.Counts)
    (hg : t.is_goal = true) : t.solution_is_possible = true := by
  have h81 : t.num_placed = 81 := t.goal_num hg
  have hfc : t.fixedCount = 81 := by rw [← hcnt.1]; exact h81
  have hall : ∀ p ∈ allCells, (t.entry p.1 p.2).is_fixed = true := by
    refine List.countP_eq_length.mp ?_
    rw [allCells_length]
    exact hfc
  rw [t.solution_is_possible_iff]
  intro r hr c hc
  have hfix := hall (r, c) (mem_allCells.mpr ⟨hr, hc⟩)
  have hw := hcnt.2 r hr c hc hfix
  intro hnil
  unfold SudokuEntry.width at hw
  rw [hnil] at hw
  cases hw

/-! ### Frame lemmas for the heap model -/

lemma readH_writeH_ne (h : PyHeap) (a a' : Nat) (e : SudokuEntry) (hne : a ≠ a') :
    readH (writeH h a e) a' = readH h a' :=
  list_getD_set_ne h a a' e SudokuEntry.init hne

lemma length_writeH (h : PyHeap) (a : Nat) (e : SudokuEntry) :
    (writeH h a e).length = h.length :=
  List.length_set h a e

lemma readH_append (h t : PyHeap) (a : Nat) (ha : a < h.length) :
    readH (h ++ t) a = readH h a :=
  list_getD_append_left h t a SudokuEntry.init ha

/-- All 81 addresses of a state object lie at or above `n`. -/
def RefHigh (n : Nat) (sr : StateRef) : Prop :=
  ∀ r, r < 9 → ∀ c, c < 9 → n ≤ sr.addr r c

lemma remove_conflictH_frame (h : PyHeap) (sr : StateRef) (row col num n a : Nat)
    (hhigh : RefHigh n sr) (hrow : row < 9) (hcol : col < 9) (ha : a < n) :
    readH (remove_conflictH h sr row col num) a = readH h a := by
  have hne : sr.addr row col ≠ a := by
    have := hhigh row hrow col hcol
    omega
  unfold remove_conflictH
  split
  · split
    · exact readH_writeH_ne h _ a _ hne
    · rfl
  · rfl

lemma length_remove_conflictH (h : PyHeap) (sr : StateRef) (row col num : Nat) :
    (remove_conflictH h sr row col num).length = h.length := by
  unfold remove_conflictH
  split
  · split
    · exact length_writeH h _ _
    · rfl
  · rfl

lemma fold_range_read (step : PyHeap → Nat → PyHeap) (a : Nat) :
    ∀ (l : List Nat), (∀ i ∈ l, ∀ hh, readH (step hh i) a = readH hh a) →
      ∀ hh, readH (l.foldl step hh) a = readH hh a
  | [], _, _ => rfl
  | i :: l, hstep, hh => by
    rw [List.foldl_cons, fold_range_read step a l (fun j hj => hstep j (by simp [hj]))]
    exact hstep i (by simp) hh

lemma fold_range_length (step : PyHeap → Nat → PyHeap) :
    ∀ (l : List Nat), (∀ i ∈ l, ∀ hh, (step hh i).length = hh.length) →
      ∀ hh, (l.foldl step hh).length = hh.length
  | [], _, _ => rfl
  | i :: l, hstep, hh => by
    rw [List.foldl_cons, fold_range_length step l (fun j hj => hstep j (by simp [hj]))]
    exact hstep i (by simp) hh

lemma remove_all_conflictsH_frame (h : PyHeap) (sr : StateRef) (row col num n a : Nat)
    (hhigh : RefHigh n sr) (hrow : row < 9) (hcol : col < 9) (ha : a < n) :
    readH (remove_all_conflictsH h sr row col num) a = readH h a := by
  unfold remove_all_conflictsH
  rw [fold_range_read _ a (List.range 9) (fun k hk hh => ?_),
    fold_range_read _ a (List.range 9) (fun j hj hh => ?_),
    fold_range_read _ a (List.range 9) (fun i hi hh => ?_)]
  · exact remove_conflictH_frame hh sr i col num n a hhigh (List.mem_range.mp hi) hcol ha
  · exact remove_conflictH_frame hh sr row j num n a hhigh hrow (List.mem_range.mp hj) ha
  · rw [fold_range_read _ a (List.range 9) (fun l hl hh2 => ?_)]
    split
    · exact remove_conflictH_frame hh2 sr k l num n a hhigh (List.mem_range.mp hk)
        (List.mem_range.mp hl) ha
    · rfl

lemma length_remove_all_conflictsH (h : PyHeap) (sr : StateRef) (row col num : Nat) :
    (remove_all_conflictsH h sr row col num).length = h.length := by
  unfold remove_all_conflictsH
  rw [fold_range_length _ (List.range 9) (fun k _ hh => ?_),
    fold_range_length _ (List.range 9) (fun j _ hh => ?_),
    fold_range_length _ (List.range 9) (fun i _ hh => ?_)]
  · exact length_remove_conflictH hh sr i col num
  · exact length_remove_conflictH hh sr row j num
  · rw [fold_range_length _ (List.range 9) (fun l _ hh2 => ?_)]
    split
    · exact length_remove_conflictH hh2 sr k l num
    · rfl

lemma add_numberH_frame (h : PyHeap) (sr : StateRef) (row col num n a : Nat)
    (hhigh : RefHigh n sr) (hrow : row < 9) (hcol : col < 9) (ha : a < n) :
    readH ((add_numberH h sr row col num).1) a = readH h a := by
  unfold add_numberH
  split
  · rfl
  · have hne : sr.addr row col ≠ a := by
      have := hhigh row hrow col hcol
      omega
    have hhigh1 : RefHigh n { num_placed := sr.num_placed + 1, cells := sr.cells } :=
      fun r hr c hc => hhigh r hr c hc
    simp only
    rw [remove_all_conflictsH_frame _ _ row col num n a hhigh1 hrow hcol ha]
    exact readH_writeH_ne h _ a _ hne

lemma length_add_numberH (h : PyHeap) (sr : StateRef) (row col num : Nat) :
    ((add_numberH h sr row col num).1).length = h.length := by
  unfold add_numberH
  split
  · rfl
  · simp only
    rw [length_remove_all_conflictsH, length_writeH]

lemma add_numberH_cells (h : PyHeap) (sr sr' : StateRef) (row col num : Nat)
    (hsome : (add_numberH h sr row col num).2 = some sr') : sr'.cells = sr.cells := by
  unfold add_numberH at hsome
  split at hsome
  · cases hsome
  · simp only [Option.some.injEq] at hsome
    rw [← hsome]

lemma scanAuxH_frame :
    ∀ (ps : List (Nat × Nat)) (h : PyHeap) (sr : StateRef) (n a : Nat),
      (∀ p ∈ ps, p.1 < 9 ∧ p.2 < 9) → RefHigh n sr → a < n →
      readH ((scanAuxH ps h sr).1) a = readH h a
  | [], _, _, _, _, _, _, _ => rfl
  | (ri, ci) :: rest, h, sr, n, a, hps, hhigh, ha => by
    rw [scanAuxH]
    have hri := (hps (ri, ci) (by simp)).1
    have hci := (hps (ri, ci) (by simp)).2
    split
    · cases hadd : add_numberH h sr ri ci ((entryH h sr ri ci).values.headD 0) with
      | mk h' o =>
        have hfr : readH h' a = readH h a := by
          have := add_numberH_frame h sr ri ci ((entryH h sr ri ci).values.headD 0) n a
            hhigh hri hci ha
          rw [hadd] at this
          exact this
        cases o with
        | none => exact hfr
        | some sr' =>
          have hcells : sr'.cells = sr.cells := add_numberH_cells h sr sr' ri ci _
            (by rw [hadd])
          have hhigh' : RefHigh n sr' := by
            intro r hr c hc
            show n ≤ sr'.addr r c
            unfold StateRef.addr
            rw [hcells]
            exact hhigh r hr c hc
          show readH (if solution_is_possibleH h' sr' = true then (h', some (sr', true))
            else scanAuxH rest h' sr').1 a = readH h a
          split
          · exact hfr
          · rw [scanAuxH_frame rest h' sr' n a
              (fun p hp => hps p (by simp [hp])) hhigh' ha]
            exact hfr
    · exact scanAuxH_frame rest h sr n a (fun p hp => hps p (by simp [hp])) hhigh ha

lemma scanAuxH_length :
    ∀ (ps : List (Nat × Nat)) (h : PyHeap) (sr : StateRef),
      ((scanAuxH ps h sr).1).length = h.length
  | [], _, _ => rfl
  | (ri, ci) :: rest, h, sr => by
    rw [scanAuxH]
    split
    · cases hadd : add_numberH h sr ri ci ((entryH h sr ri ci).values.headD 0) with
      | mk h' o =>
        have hlen : h'.length = h.length := by
          have := length_add_numberH h sr ri ci ((entryH h sr ri ci).values.headD 0)
          rw [hadd] at this
          exact this
        cases o with
        | none => exact hlen
        | some sr' =>
          show (if solution_is_possibleH h' sr' = true then (h', some (sr', true))
            else scanAuxH rest h' sr').1.length = h.length
          split
          · exact hlen
          · rw [scanAuxH_length rest h' sr']
            exact hlen
    · exact scanAuxH_length rest h sr

lemma scanAuxH_cells :
    ∀ (ps : List (Nat × Nat)) (h : PyHeap) (sr sr' : StateRef) (b : Bool),
      ((scanAuxH ps h sr).2) = some (sr', b) → sr'.cells = sr.cells
  | [], h, sr, sr', b, hh => by
    rw [scanAuxH] at hh
    simp only [Option.some.injEq, Prod.mk.injEq] at hh
    rw [← hh.1]
  | (ri, ci) :: rest, h, sr, sr', b, hh => by
    rw [scanAuxH] at hh
    split at hh
    · split at hh
      · cases hh
      · rename_i h' sr1 heq
        split at hh
        · simp only [Option.some.injEq, Prod.mk.injEq] at hh
          rw [← hh.1]
          exact add_numberH_cells h sr sr1 ri ci _ (by rw [heq])
        · rw [scanAuxH_cells rest h' sr1 sr' b hh]
          exact add_numberH_cells h sr sr1 ri ci _ (by rw [heq])
    · exact scanAuxH_cells rest h sr sr' b hh

lemma propagateAuxH_frame :
    ∀ (fuel : Nat) (h : PyHeap) (sr : StateRef) (n a : Nat),
      RefHigh n sr → a < n →
      readH ((propagateAuxH fuel h sr).1) a = readH h a
  | 0, _, _, _, _, _, _ => rfl
  | fuel + 1, h, sr, n, a, hhigh, ha => by
    rw [propagateAuxH]
    cases hscan : scanAuxH allCells h sr with
    | mk h' o =>
      have hfr : readH h' a = readH h a := by
        have := scanAuxH_frame allCells h sr n a
          (fun p hp => mem_allCells.mp hp) hhigh ha
        rw [hscan] at this
        exact this
      cases o with
      | none => exact hfr
      | some p =>
        obtain ⟨sr', b⟩ := p
        have hcells : sr'.cells = sr.cells :=
          scanAuxH_cells allCells h sr sr' b (by rw [hscan])
        have hhigh' : RefHigh n sr' := by
          intro r hr c hc
          show n ≤ sr'.addr r c
          unfold StateRef.addr
          rw [hcells]
          exact hhigh r hr c hc
        cases b with
        | false => exact hfr
        | true =>
          rw [propagateAuxH_frame fuel h' sr' n a hhigh' ha]
          exact hfr

lemma propagateAuxH_length :
    ∀ (fuel : Nat) (h : PyHeap) (sr : StateRef),
      ((propagateAuxH fuel h sr).1).length = h.length
  | 0, _, _ => rfl
  | fuel + 1, h, sr => by
    rw [propagateAuxH]
    cases hscan : scanAuxH allCells h sr with
    | mk h' o =>
      have hlen : h'.length = h.length := by
        have := scanAuxH_length allCells h sr
        rw [hscan] at this
        exact this
      cases o with
      | none => exact hlen
      | some p =>
        obtain ⟨sr', b⟩ := p
        cases b with
        | false => exact hlen
        | true =>
          rw [propagateAuxH_length fuel h' sr']
          exact hlen

lemma getD_map_range {A : Type} (f : Nat → A) (d : A) (r : Nat) (hr : r < 9) :
    ((List.range 9).map f).getD r d = f r := by
  rw [List.getD_eq_getElem _ _ (by simpa using hr)]
  simp

lemma deepcopyH_addr (h : PyHeap) (sr : StateRef) (r c : Nat) (hr : r < 9) (hc : c < 9) :
    ((deepcopyH h sr).2).addr r c = h.length + 9 * r + c := by
  unfold deepcopyH StateRef.addr
  simp only
  rw [getD_map_range _ _ r hr, getD_map_range _ _ c hc]

lemma deepcopyH_high (h : PyHeap) (sr : StateRef) : RefHigh h.length (deepcopyH h sr).2 := by
  intro r hr c hc
  rw [deepcopyH_addr h sr r c hr hc]
  omega

lemma deepcopyH_frame (h : PyHeap) (sr : StateRef) (a : Nat) (ha : a < h.length) :
    readH ((deepcopyH h sr).1) a = readH h a := by
  unfold deepcopyH
  exact readH_append h _ a ha

lemma deepcopyH_length (h : PyHeap) (sr : StateRef) :
    h.length ≤ ((deepcopyH h sr).1).length := by
  unfold deepcopyH
  simp

lemma branchesH_frame (row col : Nat) (hrow : row < 9) (hcol : col < 9) :
    ∀ (vals : List Nat) (h : PyHeap) (sr : StateRef) (n : Nat), n ≤ h.length →
      (∀ a, a < n → readH ((branchesH row col vals h sr).1) a = readH h a) ∧
        h.length ≤ ((branchesH row col vals h sr).1).length
  | [], _, _, _, _ => ⟨fun _ _ => rfl, Nat.le_refl _⟩
  | v :: vals, h, sr, n, hn => by
    have hhighc : RefHigh n (deepcopyH h sr).2 := by
      intro r hr c hc
      exact Nat.le_trans hn (deepcopyH_high h sr r hr c hc)
    have hlen1 : h.length ≤ ((deepcopyH h sr).1).length := deepcopyH_length h sr
    rw [branchesH]
    split
    · rename_i h2 heq
      have hfr2 : ∀ a, a < n → readH h2 a = readH h a := by
        intro a ha
        have hstep := add_numberH_frame (deepcopyH h sr).1 (deepcopyH h sr).2 row col v n a
          hhighc hrow hcol ha
        rw [heq] at hstep
        rw [show readH h2 a = readH ((h2, (none : Option StateRef))).1 a from rfl, hstep]
        exact deepcopyH_frame h sr a (by omega)
      have hlen2 : h.length ≤ h2.length := by
        have hl := length_add_numberH (deepcopyH h sr).1 (deepcopyH h sr).2 row col v
        rw [heq] at hl
        have hl2 : h2.length = ((deepcopyH h sr).1).length := hl
        omega
      exact ⟨hfr2, hlen2⟩
    · rename_i h2 c1 heq
      have hfr2 : ∀ a, a < n → readH h2 a = readH h a := by
        intro a ha
        have hstep := add_numberH_frame (deepcopyH h sr).1 (deepcopyH h sr).2 row col v n a
          hhighc hrow hcol ha
        rw [heq] at hstep
        rw [show readH h2 a = readH ((h2, some c1)).1 a from rfl, hstep]
        exact deepcopyH_frame h sr a (by omega)
      have hlen2 : h.length ≤ h2.length := by
        have hl := length_add_numberH (deepcopyH h sr).1 (deepcopyH h sr).2 row col v
        rw [heq] at hl
        have hl2 : h2.length = ((deepcopyH h sr).1).length := hl
        omega
      have hcells1 : c1.cells = (deepcopyH h sr).2.cells :=
        add_numberH_cells _ _ c1 row col v (by rw [heq])
      have hhighc1 : RefHigh n c1 := by
        intro r hr c hc
        show n ≤ c1.addr r c
        unfold StateRef.addr
        rw [hcells1]
        exact hhighc r hr c hc
      split
      · rename_i h3 heq3
        have hfr3 : ∀ a, a < n → readH h3 a = readH h a := by
          intro a ha
          have hstep := propagateAuxH_frame 82 h2 c1 n a hhighc1 ha
          rw [show propagateAuxH 82 h2 c1 = ((h3, (none : Option StateRef))) from heq3]
            at hstep
          rw [show readH h3 a = readH ((h3, (none : Option StateRef))).1 a from rfl, hstep]
          exact hfr2 a ha
        have hlen3 : h.length ≤ h3.length := by
          have hl := propagateAuxH_length 82 h2 c1
          rw [show propagateAuxH 82 h2 c1 = ((h3, (none : Option StateRef))) from heq3] at hl
          have hl2 : h3.length = h2.length := hl
          omega
        exact ⟨hfr3, hlen3⟩
      · rename_i h3 c2 heq3
        have hfr3 : ∀ a, a < n → readH h3 a = readH h a := by
          intro a ha
          have hstep := propagateAuxH_frame 82 h2 c1 n a hhighc1 ha
          rw [show propagateAuxH 82 h2 c1 = ((h3, some c2)) from heq3] at hstep
          rw [show readH h3 a = readH ((h3, some c2)).1 a from rfl, hstep]
          exact hfr2 a ha
        have hlen3 : h.length ≤ h3.length := by
          have hl := propagateAuxH_length 82 h2 c1
          rw [show propagateAuxH 82 h2 c1 = ((h3, some c2)) from heq3] at hl
          have hl2 : h3.length = h2.length := hl
          omega
        have hih := branchesH_frame row col hrow hcol vals h3 sr n (by omega)
        split
        · rename_i h4 heq4
          have hfr4 : ∀ a, a < n → readH h4 a = readH h a := by
            intro a ha
            have hstep := hih.1 a ha
            rw [heq4] at hstep
            rw [show readH h4 a = readH ((h4, (none : Option (List StateRef)))).1 a from rfl,
              hstep]
            exact hfr3 a ha
          have hlen4 : h.length ≤ h4.length := by
            have hl := hih.2
            rw [heq4] at hl
            have hl2 : h3.length ≤ h4.length := hl
            omega
          exact ⟨hfr4, hlen4⟩
        · rename_i h4 tail heq4
          have hfr4 : ∀ a, a < n → readH h4 a = readH h a := by
            intro a ha
            have hstep := hih.1 a ha
            rw [heq4] at hstep
            rw [show readH h4 a = readH ((h4, some tail)).1 a from rfl, hstep]
            exact hfr3 a ha
          have hlen4 : h.length ≤ h4.length := by
            have hl := hih.2
            rw [heq4] at hl
            have hl2 : h3.length ≤ h4.length := hl
            omega
          exact ⟨hfr4, hlen4⟩

lemma mccGen_some_mem (look : Nat → Nat → SudokuEntry) :
    ∀ (ps : List (Nat × Nat)) (d : Nat) (loc : Option (Nat × Nat)) (q : Nat × Nat),
      (mccGen look ps d loc).2 = some q → loc = some q ∨ q ∈ ps
  | [], _, _, _, h => Or.inl h
  | (r, c) :: ps, d, loc, q, h => by
    by_cases hg : (look r c).is_fixed = false ∧ (look r c).width ≤ d
    · rw [mccGen_cons_update look r c ps d loc hg] at h
      rcases mccGen_some_mem look ps _ _ q h with heq | hmem
      · simp only [Option.some.injEq] at heq
        exact Or.inr (by simp [heq])
      · exact Or.inr (by simp [hmem])
    · rw [mccGen_cons_skip look r c ps d loc hg] at h
      rcases mccGen_some_mem look ps d loc q h with heq | hmem
      · exact Or.inl heq
      · exact Or.inr (by simp [hmem])

lemma next_statesH_frame (h : PyHeap) (sr : StateRef) :
    ∀ a, a < h.length → readH ((next_statesH h sr).1) a = readH h a := by
  intro a ha
  unfold next_statesH
  cases hmcc : get_most_constrained_cellH h sr with
  | none => rfl
  | some q =>
    obtain ⟨row, col⟩ := q
    have hmem : (row, col) ∈ allCells := by
      rcases mccGen_some_mem (entryH h sr) allCells 9 none (row, col) hmcc with heq | hmem
      · cases heq
      · exact hmem
    obtain ⟨hrow, hcol⟩ := mem_allCells.mp hmem
    exact (branchesH_frame row col hrow hcol (entryH h sr row col).values h sr h.length
      (Nat.le_refl _)).1 a ha

/-! ### Claim theorems -/

/-- Claim C3: on a well-formed board, for every cell `(row, col)` whose entry
is unfixed and whose domain contains `value`, `add_number(row, col, value)`
succeeds, collapses that cell's domain to exactly `[value]` and marks it
fixed, increments `num_placed` by one, and afterwards no other unfixed cell
in the same row, column, or 3×3 subgrid contains `value` in its domain. -/
theorem add_number_spec (s : SudokuState) (row col value : Nat)
    (hrep : s.Rep) (hrow : row < 9) (hcol : col < 9)
    (hunf : (s.entry row col).is_fixed = false)
    (hval : value ∈ (s.entry row col).domain) :
    ∃ t, s.add_number row col value = some t ∧
      t.entry row col = { fixed := true, domain := [value] } ∧
      t.num_placed = s.num_placed + 1 ∧
      ∀ r' c', r' < 9 → c' < 9 → ¬(row = r' ∧ col = c') →
        (r' = row ∨ c' = col ∨
          s.get_subgrid_number r' c' = s.get_subgrid_number row col) →
        (t.entry r' c').is_fixed = false → value ∉ (t.entry r' c').domain := by
  have ha : row < s.board.length := by rw [hrep.1.1]; exact hrow
  have hb : col < (s.board.getD row []).length := by
    rw [s.shape_row_length hrep.1 row hrow]; exact hcol
  refine ⟨s.addNum row col value, s.add_number_addNum row col value hval,
    SudokuState.add_number_target s row col value ha hb,
    SudokuState.add_number_num s row col value, ?_⟩
  intro r' c' hr' hc' hne hunit hunf'
  have hcc : (r', c') ∈ conflictCells row col := by
    rw [mem_conflictCells]
    rcases hunit with h | h | h
    · exact Or.inr (Or.inl ⟨h, hc'⟩)
    · exact Or.inl ⟨hr', h⟩
    · refine Or.inr (Or.inr ⟨hr', hc', ?_⟩)
      have := h
      unfold SudokuState.get_subgrid_number at this
      exact this
  have hsunf : (s.entry r' c').is_fixed = false := by
    have hflag := s.add_number_flag_other row col value r' c' hne
    show (s.entry r' c').fixed = false
    rw [← hflag]
    exact hunf'
  refine SudokuState.add_number_hit s row col value r' c' hne hcc hsunf ?_ ?_ ?_
  · rw [hrep.1.1]; exact hr'
  · rw [s.shape_row_length hrep.1 r' hr']; exact hc'
  · exact (hrep.2 r' hr' c' hc').1

/-- Witness for C3: `add_number(0, 0, 5)` on the fresh board. -/
theorem add_number_spec_witness :
    SudokuState.init.Rep ∧ (SudokuState.init.entry 0 0).is_fixed = false ∧
      5 ∈ (SudokuState.init.entry 0 0).domain ∧
      ∃ t, SudokuState.init.add_number 0 0 5 = some t ∧
        t.entry 0 0 = { fixed := true, domain := [5] } ∧
        t.num_placed = SudokuState.init.num_placed + 1 ∧
        ∀ r' c', r' < 9 → c' < 9 → ¬(0 = r' ∧ 0 = c') →
          (r' = 0 ∨ c' = 0 ∨
            SudokuState.init.get_subgrid_number r' c' =
              SudokuState.init.get_subgrid_number 0 0) →
          (t.entry r' c').is_fixed = false → 5 ∉ (t.entry r' c').domain :=
  ⟨by decide, by decide, by decide,
    add_number_spec SudokuState.init 0 0 5 (by decide) (by decide) (by decide)
      (by decide) (by decide)⟩

/-- Counterexample for C4: on the fully empty board,
`get_most_constrained_cell()` returns `(8, 8)` — the `width() <= dom`
comparison lets every later tied cell overwrite the stored location — and
not `(0, 0)` as the claim states. -/
theorem mcc_empty_board_cx :
    SudokuState.init.get_most_constrained_cell = some (8, 8) ∧
      SudokuState.init.get_most_constrained_cell ≠ some (0, 0) := by
  decide

/-- Claim C4 (amended): on a well-formed board,
`get_most_constrained_cell()` returns `none` exactly when no unfixed cell
exists; otherwise it returns an unfixed cell of minimal domain size among
the unfixed cells, ties broken by the LAST such cell in the row-major scan
(in particular `(8, 8)`, not `(0, 0)`, on the empty board). -/
theorem mcc_spec_amended (s : SudokuState) (hrep : s.Rep) :
    (s.get_most_constrained_cell = none ↔
      ∀ r, r < 9 → ∀ c, c < 9 → (s.entry r c).is_fixed = true) ∧
    (∀ r c, s.get_most_constrained_cell = some (r, c) →
      r < 9 ∧ c < 9 ∧ (s.entry r c).is_fixed = false ∧
        (∀ r' c', r' < 9 → c' < 9 → (s.entry r' c').is_fixed = false →
          (s.entry r c).width ≤ (s.entry r' c').width) ∧
        (∀ r' c', r' < 9 → c' < 9 → (s.entry r' c').is_fixed = false →
          (s.entry r' c').width = (s.entry r c).width → 9 * r' + c' ≤ 9 * r + c)) :=
  ⟨s.mcc_eq_none_iff hrep, fun r c hq => s.mcc_some_spec r c hq⟩

/-- Witness for C4 (amended): the fresh board, where the scan picks
`(8, 8)`. -/
theorem mcc_spec_amended_witness :
    SudokuState.init.Rep ∧
      SudokuState.init.get_most_constrained_cell = some (8, 8) ∧
      (8 < 9 ∧ 8 < 9 ∧ (SudokuState.init.entry 8 8).is_fixed = false ∧
        (∀ r' c', r' < 9 → c' < 9 → (SudokuState.init.entry r' c').is_fixed = false →
          (SudokuState.init.entry 8 8).width ≤ (SudokuState.init.entry r' c').width) ∧
        (∀ r' c', r' < 9 → c' < 9 → (SudokuState.init.entry r' c').is_fixed = false →
          (SudokuState.init.entry r' c').width = (SudokuState.init.entry 8 8).width →
          9 * r' + c' ≤ 9 * 8 + 8)) :=
  ⟨by decide, by decide,
    (mcc_spec_amended SudokuState.init (by decide)).2 8 8 (by decide)⟩

/-- Counterexample for C5: on `contBoard` the first forced cell is `(0, 0)`
(unfixed, width 1), fixing it makes the board impossible, yet the returned
board of the same `propagate()` call has also fixed the later forced cell
`(0, 2)` (two placements in one call): the claim that no further forced
cell is fixed after the board first becomes impossible is false. -/
theorem propagate_continues_cx :
    (contBoard.Rep ∧ contBoard.Counts) ∧
      ((contBoard.entry 0 0).is_fixed = false ∧ (contBoard.entry 0 0).width = 1) ∧
      (contBoard.add_number 0 0 5).map SudokuState.solution_is_possible = some false ∧
      (contBoard.entry 0 2).is_fixed = false ∧
      contBoard.propagate.map (fun t => ((t.entry 0 2).is_fixed, t.num_placed)) =
        some (true, 2) := by
  decide

/-- Claim C5 (amended): once the board is impossible, `propagate()` never
starts a new scan pass: from an impossible board every scan prefix runs to
its end without triggering the recursive call, and `propagate()` returns
the result of that single remaining pass (which may still fix further
forced cells encountered later in the pass, as `propagate_continues_cx`
shows). -/
theorem propagate_stops_amended (s : SudokuState)
    (h : s.solution_is_possible = false) :
    (∀ ps, ∃ t, SudokuState.scanAux ps s = some (t, false)) ∧
      ∃ t, SudokuState.scanAux allCells s = some (t, false) ∧ s.propagate = some t :=
  ⟨fun ps => SudokuState.scanAux_impossible ps s h, s.propagate_of_impossible h⟩

/-- Witness for C5 (amended): a board with an emptied domain at `(0, 0)`. -/
theorem propagate_stops_amended_witness :
    deadBoard.solution_is_possible = false ∧
      ∃ t, SudokuState.scanAux allCells deadBoard = some (t, false) ∧
        deadBoard.propagate = some t :=
  ⟨by decide, (propagate_stops_amended deadBoard (by decide)).2⟩

/-- Counterexample for C6: `propagate()` is not idempotent on
`twoPassBoard`: the first call fixes `(0, 1)` (making the board impossible
and shrinking the already-passed cell `(0, 0)` to width 1), and a second
call then fixes `(0, 0)` as well, producing a different board. -/
theorem propagate_not_idempotent_cx :
    (twoPassBoard.Rep ∧ twoPassBoard.Counts) ∧
      twoPassBoard.propagate.bind SudokuState.propagate ≠ twoPassBoard.propagate := by
  decide

/-- Claim C6 (amended): `propagate()` is idempotent on every board it
leaves possible: if `propagate()` returns `t` and `t` is still possible,
then running `propagate()` on `t` returns `t` unchanged.  (On boards left
impossible a second call can place further values, see
`propagate_not_idempotent_cx`.) -/
theorem propagate_idem_amended (s t : SudokuState)
    (h : s.propagate = some t) (hposs : t.solution_is_possible = true) :
    t.propagate = some t :=
  SudokuState.propagate_idem_of_possible s t h hposs

/-- Witness for C6 (amended): the fresh board is a fixpoint of
`propagate`. -/
theorem propagate_idem_amended_witness :
    SudokuState.init.solution_is_possible = true ∧
      SudokuState.init.propagate = some SudokuState.init :=
  ⟨by decide,
    propagate_idem_amended SudokuState.init SudokuState.init (by decide) (by decide)⟩

/-- Claim C7: `propagate()` terminates on every board state: whenever a scan
triggers the recursive call (flag `true`), `num_placed` has strictly
increased; under the board invariant `num_placed` is bounded by 81; and the
fuel-indexed recursion always completes from its fixed initial fuel, i.e.
`propagate` returns a result on every state. -/
theorem propagate_terminates :
    (∀ (ps : List (Nat × Nat)) (s t : SudokuState),
      SudokuState.scanAux ps s = some (t, true) → s.num_placed < t.num_placed) ∧
    (∀ s : SudokuState, s.Counts → s.num_placed ≤ 81) ∧
    (∀ s : SudokuState, ∃ t, s.propagate = some t) :=
  ⟨fun ps s t h => (SudokuState.scanAux_num ps s t true h).2 rfl,
    fun s hc => by rw [hc.1]; exact s.fixedCount_le,
    fun s => s.propagate_total⟩

/-- Witness for C7: `forcedBoard` makes the scan recurse once with
`num_placed` increased, and on the fresh board the bound and totality
instantiate. -/
theorem propagate_terminates_witness :
    (SudokuState.scanAux allCells forcedBoard = some (forcedBoard.addNum 0 0 5, true) ∧
      forcedBoard.num_placed < (forcedBoard.addNum 0 0 5).num_placed) ∧
      SudokuState.init.Counts ∧ SudokuState.init.num_placed ≤ 81 ∧
      ∃ t, SudokuState.init.propagate = some t :=
  ⟨⟨by decide,
      propagate_terminates.1 allCells forcedBoard (forcedBoard.addNum 0 0 5) (by decide)⟩,
    by decide, propagate_terminates.2.1 SudokuState.init (by decide),
    propagate_terminates.2.2 SudokuState.init⟩

/-- Counterexample for C8: re-fixing an already-fixed entry with the value
it already holds passes the `assert n in self.domain` check and succeeds
silently, and eliminating a value that is absent from a fixed entry's
domain is a silent no-op — neither fails an assertion as the claim
states. -/
theorem entry_assert_cx :
    SudokuEntry.fix { fixed := true, domain := [5] } 5 =
        some { fixed := true, domain := [5] } ∧
      SudokuEntry.eliminate { fixed := true, domain := [5] } 3 =
        some { fixed := true, domain := [5] } := by
  decide

/-- Claim C8 (amended): `fix` fails its assertion exactly when the value is
not in the domain (so fixing an already-fixed cell fails only when the
value differs from the stored one), and `eliminate` fails its assertion on
a fixed cell exactly when the value is present in the domain (an absent
value is a silent no-op). -/
theorem entry_assert_amended (e : SudokuEntry) (n : Nat) :
    (n ∉ e.domain → e.fix n = none) ∧
    (n ∈ e.domain → e.fix n = some { fixed := true, domain := [n] }) ∧
    (e.fixed = true → n ∈ e.domain → e.eliminate n = none) ∧
    (e.fixed = true → n ∉ e.domain → e.eliminate n = some e) := by
  refine ⟨fun h => ?_, fun h => ?_, fun hf h => ?_, fun hf h => ?_⟩
  · unfold SudokuEntry.fix
    rw [if_neg h]
  · unfold SudokuEntry.fix
    rw [if_pos h]
  · unfold SudokuEntry.eliminate
    rw [if_pos h, if_pos hf]
  · unfold SudokuEntry.eliminate
    rw [if_neg h]

/-- Witness for C8 (amended): fixing 3 on an unfixed entry with domain
`[1, 2]` fails the assertion. -/
theorem entry_assert_amended_witness :
    (3 ∉ SudokuEntry.domain { fixed := false, domain := [1, 2] }) ∧
      SudokuEntry.fix { fixed := false, domain := [1, 2] } 3 = none :=
  ⟨by decide, (entry_assert_amended { fixed := false, domain := [1, 2] } 3).1 (by decide)⟩

/-- Claim C10: building the successors never mutates any pre-existing heap
object: every address already allocated before the `next_states` call reads
the same entry afterwards (each successor works on a deep copy at fresh
addresses), so in particular the parent's 81 cells are unchanged. -/
theorem next_statesH_no_mutation (h : PyHeap) (sr : StateRef) :
    (∀ a, a < h.length → readH ((next_statesH h sr).1) a = readH h a) ∧
    (∀ r, r < 9 → ∀ c, c < 9 → sr.addr r c < h.length →
      entryH ((next_statesH h sr).1) sr r c = entryH h sr r c) := by
  refine ⟨next_statesH_frame h sr, ?_⟩
  intro r _ c _ haddr
  exact next_statesH_frame h sr (sr.addr r c) haddr

/-- Witness for C10: the 81-object heap of a fresh board; address 0 (the
parent's cell `(0, 0)`) is untouched by `next_states`. -/
theorem next_statesH_no_mutation_witness :
    0 < heap81.length ∧
      readH ((next_statesH heap81 sr81).1) 0 = readH heap81 0 :=
  ⟨by decide, (next_statesH_no_mutation heap81 sr81).1 0 (by decide)⟩

/-- Claim C2: on a well-formed board whose most-constrained scan picks cell
`(r, c)` (i.e. at least one unfixed cell exists), the domain being iterated
is strictly ascending, and `next_states()` returns exactly one candidate
per value of that domain, in domain order — each built by deep-copying the
board, fixing the value, and propagating — kept if and only if
`solution_is_possible()` holds afterwards; an empty domain yields the empty
list, and on the fully empty board the returned list has length 9. -/
theorem next_states_spec :
    (∀ (s : SudokuState) (r c : Nat), s.Rep →
      s.get_most_constrained_cell = some (r, c) →
      List.Pairwise (· < ·) ((s.entry r c).values) ∧
      s.next_states = some (successorsSpec s r c) ∧
      ((s.entry r c).values = [] → s.next_states = some [])) ∧
    (∃ l, SudokuState.init.next_states = some l ∧ l.length = 9) := by
  constructor
  · intro s r c hrep hq
    obtain ⟨hr9, hc9, -, -, -⟩ := s.mcc_some_spec r c hq
    have hchar := s.next_states_char r c hq
    refine ⟨(hrep.2 r hr9 c hc9).2.1, hchar, ?_⟩
    intro hemp
    rw [hchar]
    unfold successorsSpec
    rw [hemp]
    rfl
  · exact ⟨successorsSpec SudokuState.init 8 8,
      SudokuState.next_states_char SudokuState.init 8 8 (by decide), by decide⟩

/-- Witness for C2: the fresh board, whose scan picks `(8, 8)`. -/
theorem next_states_spec_witness :
    SudokuState.init.Rep ∧
      SudokuState.init.get_most_constrained_cell = some (8, 8) ∧
      SudokuState.init.next_states = some (successorsSpec SudokuState.init 8 8) :=
  ⟨by decide, by decide,
    (next_states_spec.1 SudokuState.init 8 8 (by decide) (by decide)).2.1⟩

/-- Claim C9: the board invariant (`num_placed` equals the number of fixed
cells, and every fixed cell's domain has exactly one element — the
`Counts` predicate) is preserved by `add_number` under its precondition, by
`propagate`, and by every state in `next_states`; consequently every goal
state returned by `dfs` has `num_placed = 81` and is still possible. -/
theorem invariant_spec :
    (∀ (s : SudokuState) (row col v : Nat), s.Rep → s.Counts → row < 9 → col < 9 →
      (s.entry row col).is_fixed = false → v ∈ (s.entry row col).domain →
      ∃ t, s.add_number row col v = some t ∧ t.Rep ∧ t.Counts) ∧
    (∀ s t : SudokuState, s.Rep → s.Counts → s.propagate = some t →
      t.Rep ∧ t.Counts) ∧
    (∀ (s : SudokuState) (l : List SudokuState), s.Rep → s.Counts →
      s.next_states = some l → ∀ t ∈ l, t.Rep ∧ t.Counts) ∧
    (∀ (s : SudokuState) (r : List SudokuState), s.Rep → s.Counts → dfs s = some r →
      ∀ t ∈ r, t.num_placed = 81 ∧ t.solution_is_possible = true) := by
  refine ⟨?_, ?_, ?_, ?_⟩
  · intro s row col v hrep hcnt hrow hcol hunf hv
    exact ⟨s.addNum row col v, s.add_number_addNum row col v hv,
      SudokuState.add_number_rep s row col v hrep hrow hcol hv,
      SudokuState.add_number_counts s row col v hrep.1 hrow hcol hunf hcnt⟩
  · intro s t hrep hcnt hp
    exact SudokuState.propagateAux_repCounts 82 s t hrep hcnt hp
  · intro s l hrep hcnt hns t ht
    have hx := s.next_states_successor hrep hcnt l hns t ht
    exact ⟨hx.1, hx.2.1⟩
  · intro s r hrep hcnt hdfs t ht
    have hsound := dfsAux_sound 82 s r hdfs t ht
    have hrc := reach_repCounts s t hsound.2 hrep hcnt
    exact ⟨t.goal_num hsound.1, t.goal_possible hrc.1 hrc.2 hsound.1⟩

/-- Witness for C9: `add_number(0, 0, 5)` on the fresh board preserves the
invariant. -/
theorem invariant_spec_witness :
    SudokuState.init.Rep ∧ SudokuState.init.Counts ∧
      (SudokuState.init.entry 0 0).is_fixed = false ∧
      5 ∈ (SudokuState.init.entry 0 0).domain ∧
      ∃ t, SudokuState.init.add_number 0 0 5 = some t ∧ t.Rep ∧ t.Counts :=
  ⟨by decide, by decide, by decide, by decide,
    invariant_spec.1 SudokuState.init 0 0 5 (by decide) (by decide) (by decide)
      (by decide) (by decide) (by decide)⟩

/-- Claim C1: on a well-formed board, `dfs(state)` returns `[state]` when
`state.is_goal()`; otherwise it returns the concatenation, in successor
order, of the recursive results on the successors; every state it returns
is a goal state reachable from the input; and when no reachable goal state
exists it returns the empty list with no exception (`some []`, never
`none`) — in particular for an unsatisfiable input puzzle. -/
theorem dfs_spec (s : SudokuState) (hrep : s.Rep) (hcnt : s.Counts) :
    (s.is_goal = true → dfs s = some [s]) ∧
    (s.is_goal = false → ∀ succs, s.next_states = some succs →
      ∃ parts : List (List SudokuState),
        dfs s = some parts.flatten ∧ parts.length = succs.length ∧
        ∀ i (hi : i < succs.length) (hi2 : i < parts.length),
          dfs (succs.get ⟨i, hi⟩) = some (parts.get ⟨i, hi2⟩)) ∧
    (∀ r, dfs s = some r → ∀ t ∈ r, t.is_goal = true ∧ ReachState s t) ∧
    ((∀ t, ReachState s t → t.is_goal = false) → dfs s = some []) := by
  refine ⟨?_, ?_, ?_, ?_⟩
  · intro hg
    exact dfsAux_succ_goal 81 s hg
  · intro hg succs hns
    have hg' : ¬s.is_goal = true := by rw [hg]; simp
    have hsucc : ∀ x ∈ succs, dfsAux 81 x = some ((dfsAux 81 x).getD []) := by
      intro x hx
      have hx' := s.next_states_successor hrep hcnt succs hns x hx
      have hcnt81 : x.unfixedCount < 81 := by
        have h1 := hx'.2.2.1
        have h2 := s.unfixedCount_le
        omega
      obtain ⟨rx, hrx⟩ := dfsAux_total 81 x hx'.1 hx'.2.1 hcnt81
      rw [hrx]
      rfl
    refine ⟨succs.map (fun x => (dfsAux 81 x).getD []), ?_, by simp, ?_⟩
    · show dfsAux 82 s = _
      rw [dfsAux_succ_some 81 s succs hg' hns,
        foldBind_map (dfsAux 81) (fun x => (dfsAux 81 x).getD []) succs hsucc []]
      simp
    · intro i hi hi2
      show dfsAux 82 _ = _
      have hm := dfsAux_mono 81 _ _ (hsucc _ (succs.get_mem i hi))
      simp only [List.get_eq_getElem, List.getElem_map]
      exact hm
  · intro r hr t ht
    exact dfsAux_sound 82 s r hr t ht
  · intro hnone
    obtain ⟨r, hr⟩ := dfsAux_total 82 s hrep hcnt (by have := s.unfixedCount_le; omega)
    have hempty : r = [] := by
      refine List.eq_nil_iff_forall_not_mem.mpr (fun t ht => ?_)
      have hs := dfsAux_sound 82 s r hr t ht
      rw [hnone t hs.2] at hs
      cases hs.1
    show dfsAux 82 s = some []
    rw [hr, hempty]

/-- Witness for C1: the completed board of the source's `problem1` is a
goal state, and `dfs` on it returns the singleton. -/
theorem dfs_spec_witness :
    solvedBoard.Rep ∧ solvedBoard.Counts ∧ solvedBoard.is_goal = true ∧
      dfs solvedBoard = some [solvedBoard] :=
  ⟨by decide, by decide, by decide,
    (dfs_spec solvedBoard (by decide) (by decide)).1 (by decide)⟩
